import Mathlib

/-!
Verification of the declarative-state reconciler of the Docker container
module (src/lib/ansible/modules/cloud/docker/docker_container.py).

The module compares a desired container configuration against the state
reported by the Docker daemon.  The pieces embedded here are:

* the comparator `compare_generic` and the `DifferenceTracker` accumulator
  (imported by the module from `ansible.module_utils.docker.common`, which is
  not part of the reviewed sources; they are modelled from the specification,
  sections 4.1 and 4.2);
* the reconciliation loop `Container.has_different_configuration`
  (docker_container.py, lines 1887 to 1917) together with the construction of
  the dependent entries of `config_mapping` (lines 1850 to 1867);
* the comparison-configuration resolution
  `AnsibleDockerClientContainer._parse_comparisons` (lines 2692 to 2797);
* the unpause-and-retry loops of `ContainerManager.container_remove`
  (lines 2578 to 2606) and `ContainerManager.container_stop`
  (lines 2644 to 2670).

Scalar payloads are kept generic in a linearly ordered type `α`; Python
dictionaries are represented as association lists, with dictionary values
understood up to their map semantics (a Python `dict` compares equal
regardless of insertion order, so well-formed dictionary payloads are
represented canonically).
-/

namespace AnsibleDocker

/-- A value attached to a container property: a scalar, a list of scalars, a
string-keyed dictionary, or a list of dictionaries.  This covers the value
shapes `value`, `list`/`set`, `dict` and `set(dict)` used by the module. -/
inductive PropValue (α : Type) where
  | scalar (a : α)
  | list (l : List α)
  | dict (d : List (String × α))
  | dictList (l : List (List (String × α)))
deriving DecidableEq

/-- One entry of the per-property comparison table: the value-shape tag
(`value`, `list`, `set`, `dict`, `set(dict)`), the comparison strategy
(`strict`, `ignore`, `allow_more_present`) and the display name, exactly the
`dict(type=..., comparison=..., name=...)` records built by
`_parse_comparisons`. -/
structure ComparisonEntry where
  typ : String
  comparison : String
  name : String
deriving DecidableEq

section Comparator

variable {α : Type} [LinearOrder α]

/-- Modelled from the spec: `compare_dict_allow_more_present` of
`ansible.module_utils.docker.common` (not in the reviewed sources).  Per
section 4.1, a desired dictionary matches an observed one when every key of
the desired dictionary exists in the observed one with an equal value. -/
def subDict (d e : List (String × α)) : Bool :=
  d.all (fun p => decide (e.lookup p.1 = some p.2))

/-- Modelled from the spec: `compare_generic` of
`ansible.module_utils.docker.common` (not in the reviewed sources), the
Comparator of section 4.1.  `ignore` always matches; `strict` is exact
equality, taken as multiset equality for the unordered shapes `set` and
`set(dict)`; `allow_more_present` allows the observed side to be a superset.
Combinations the spec leaves undefined (`allow_more_present` on `value` or
`list`, which setup rejects or never produces) fall back to exact equality;
an unknown strategy string never matches. -/
def compare_generic (a b : PropValue α) (method typ : String) : Bool :=
  if method = "ignore" then true
  else if method = "strict" then
    if typ = "set" then
      match a, b with
      | .list x, .list y => decide (List.Perm x y)
      | _, _ => decide (a = b)
    else if typ = "set(dict)" then
      match a, b with
      | .dictList x, .dictList y => decide (List.Perm x y)
      | _, _ => decide (a = b)
    else decide (a = b)
  else if method = "allow_more_present" then
    if typ = "set" then
      match a, b with
      | .list x, .list y => x.all (fun v => decide (v ∈ y))
      | _, _ => decide (a = b)
    else if typ = "dict" then
      match a, b with
      | .dict x, .dict y => subDict x y
      | _, _ => decide (a = b)
    else if typ = "set(dict)" then
      match a, b with
      | .dictList x, .dictList y => x.all (fun d => y.any (fun e => subDict d e))
      | _, _ => decide (a = b)
    else decide (a = b)
  else false

/-- A dictionary payload is well formed when its keys are distinct, as the
keys of a Python `dict` always are. -/
def WellFormed : PropValue α → Prop
  | .dict d => (d.map Prod.fst).Nodup
  | .dictList l => ∀ d ∈ l, (d.map Prod.fst).Nodup
  | _ => True

end Comparator

section Tracker

variable {α : Type}

/-- Modelled from the spec: one recorded mismatch of section 4.2, the
property name together with the desired (`parameter`) and observed
(`active`) values. -/
structure Difference (α : Type) where
  property : String
  parameter : PropValue α
  active : PropValue α
deriving DecidableEq

/-- Modelled from the spec: the `DifferenceTracker` of
`ansible.module_utils.docker.common` (not in the reviewed sources), an
ordered accumulator of differences. -/
structure DifferenceTracker (α : Type) where
  differences : List (Difference α)
deriving DecidableEq

/-- Modelled from the spec: `add` appends one difference; a repeated
property name overwrites the earlier record, the documented resolution for
what the spec calls a caller bug. -/
def DifferenceTracker.add (t : DifferenceTracker α) (property : String)
    (parameter active : PropValue α) : DifferenceTracker α :=
  if t.differences.any (fun d => decide (d.property = property)) then
    ⟨t.differences.map (fun d =>
      if d.property = property then ⟨property, parameter, active⟩ else d)⟩
  else ⟨t.differences ++ [⟨property, parameter, active⟩]⟩

/-- Modelled from the spec: `isEmpty` holds when no difference was
recorded. -/
def DifferenceTracker.isEmpty (t : DifferenceTracker α) : Bool :=
  t.differences.isEmpty

/-- Modelled from the spec: `merge` appends the differences of another
tracker, preserving order. -/
def DifferenceTracker.merge (t other : DifferenceTracker α) : DifferenceTracker α :=
  ⟨t.differences ++ other.differences⟩

end Tracker

section Sorting

variable {α : Type} [LinearOrder α]

/-- Ordering of dictionary items, as Python orders pairs: by key first, then
by value.  Used to model `sorted(x.items())`. -/
def pairLe (p q : String × α) : Prop :=
  p.1 < q.1 ∨ (p.1 = q.1 ∧ p.2 ≤ q.2)

instance : DecidableRel (pairLe (α := α)) := fun p q => by
  unfold pairLe; infer_instance

/-- Lexicographic ordering of item lists, as Python compares two lists of
pairs.  A shorter list precedes every extension of itself. -/
def itemsLe : List (String × α) → List (String × α) → Prop
  | [], _ => True
  | _ :: _, [] => False
  | p :: ps, q :: qs => (pairLe p q ∧ ¬ pairLe q p) ∨ (p = q ∧ itemsLe ps qs)

def itemsLe.dec : (x y : List (String × α)) → Decidable (itemsLe x y)
  | [], _ => .isTrue trivial
  | _ :: _, [] => .isFalse (fun h => h)
  | p :: ps, q :: qs => by
    have := itemsLe.dec ps qs
    unfold itemsLe
    infer_instance

instance : DecidableRel (itemsLe (α := α)) := itemsLe.dec

/-- The sort key relation on dictionaries used for `set(dict)` values: the
source sorts a list of dictionaries `by using the sorted items of a dict as
its key` (docker_container.py, line 1909). -/
def dictLe (d e : List (String × α)) : Prop :=
  itemsLe (List.insertionSort pairLe d) (List.insertionSort pairLe e)

instance : DecidableRel (dictLe (α := α)) := fun d e => by
  unfold dictLe; infer_instance

/-- The ordering on scalars, as a relation usable by `List.insertionSort`. -/
def scalarLe (a b : α) : Prop := a ≤ b

instance : DecidableRel (scalarLe (α := α)) := fun a b =>
  inferInstanceAs (Decidable (a ≤ b))

/-- The display normalization applied on a mismatch
(docker_container.py, lines 1901 to 1913): values of type `set` are sorted,
values of type `set(dict)` are sorted using the sorted items of each
dictionary as its key; every other shape is recorded unchanged. -/
def sortForDiff (typ : String) (v : PropValue α) : PropValue α :=
  if typ = "set" then
    match v with
    | .list l => .list (List.insertionSort scalarLe l)
    | x => x
  else if typ = "set(dict)" then
    match v with
    | .dictList l => .dictList (List.insertionSort dictLe l)
    | x => x
  else v

end Sorting

section Reconcile

variable {α : Type} [LinearOrder α]

/-- One iteration of the comparison loop of
`Container.has_different_configuration` (docker_container.py, lines 1888 to
1914): skip the property when it is unsupported for the daemon version or
when the desired parameters carry no value for it; otherwise compare the
desired and observed values and, on a mismatch, record the display-sorted
pair in the tracker. -/
def hdcStep (parameters : String → Option (PropValue α)) (supported : String → Bool)
    (comparisons : String → ComparisonEntry) (parameters_map : String → String)
    (differences : DifferenceTracker α) (kv : String × PropValue α) :
    DifferenceTracker α :=
  if supported kv.1 = false then differences
  else
    let compare := comparisons (parameters_map kv.1)
    match parameters kv.1 with
    | none => differences
    | some p =>
      if compare_generic p kv.2 compare.comparison compare.typ then differences
      else
        differences.add kv.1 (sortForDiff compare.typ p) (sortForDiff compare.typ kv.2)

/-- The comparison loop of `Container.has_different_configuration`
(docker_container.py, lines 1887 to 1917).  `config_mapping` is the ordered
list of (property, observed value) items; `parameters` is the desired state
(`getattr(self.parameters, key, None)`); `supported` is the precomputed
capability flag (`option_minimal_versions`, defaulting to supported);
`comparisons` is the comparison table of the client, looked up through
`parameters_map` (`self.parameters_map.get(key, key)`).  Returns the pair
`(has_differences, differences)`. -/
def has_different_configuration (config_mapping : List (String × PropValue α))
    (parameters : String → Option (PropValue α)) (supported : String → Bool)
    (comparisons : String → ComparisonEntry) (parameters_map : String → String) :
    Bool × DifferenceTracker α :=
  let differences := config_mapping.foldl
    (hdcStep parameters supported comparisons parameters_map) ⟨[]⟩
  (!differences.isEmpty, differences)

/-- The construction of the dependent entries of `config_mapping`
(docker_container.py, lines 1850 to 1867): `restart_retries` is present only
when the `restart_policy` parameter is set; `log_driver` and `log_options`
only when the `log_driver` parameter is set; `auto_remove` and
`stop_timeout` only when the client reports them as supported.  `base` holds
the unconditional entries of lines 1794 to 1849 and `limits` the
update-incompatible entries added for old daemons (lines 1874 to 1885). -/
def build_config_mapping (base : List (String × PropValue α))
    (restart_policy_set log_driver_set : Bool)
    (restart_retries_value log_driver_value log_options_value : PropValue α)
    (auto_remove_supported stop_timeout_supported : Bool)
    (auto_remove_value stop_timeout_value : PropValue α)
    (api_before_1_22 : Bool) (limits : List (String × PropValue α)) :
    List (String × PropValue α) :=
  base
    ++ (if restart_policy_set then [("restart_retries", restart_retries_value)] else [])
    ++ (if log_driver_set then
          [("log_driver", log_driver_value), ("log_options", log_options_value)] else [])
    ++ (if auto_remove_supported then [("auto_remove", auto_remove_value)] else [])
    ++ (if stop_timeout_supported then [("stop_timeout", stop_timeout_value)] else [])
    ++ (if api_before_1_22 then limits else [])

end Reconcile

section ParseComparisons

/-- The fields of one argument-spec entry consulted by `_parse_comparisons`:
the declared option type and the list of aliases. -/
structure ArgData where
  typ : String
  aliases : List String
deriving DecidableEq

/-- The base tuple of `__NON_CONTAINER_PROPERTY_OPTIONS`
(docker_container.py, lines 2686 to 2690).  The source extends it with the
keys of `DOCKER_COMMON_ARGS` from `ansible.module_utils.docker.common`,
which is not part of the reviewed sources; the functions below therefore
take the full list as an argument. -/
def NON_CONTAINER_PROPERTY_OPTIONS_BASE : List String :=
  ["env_file", "force_kill", "keep_volumes", "ignore_image", "name", "pull",
   "purge_networks", "recreate", "restart", "state", "trust_image_content",
   "networks", "cleanup", "kill_signal", "output_logs", "paused"]

/-- The `explicit_types` table of `_parse_comparisons`
(docker_container.py, lines 2696 to 2710). -/
def explicit_types : List (String × String) :=
  [("command", "list"), ("devices", "set(dict)"), ("dns_search_domains", "list"),
   ("dns_servers", "list"), ("env", "set"), ("entrypoint", "list"),
   ("etc_hosts", "set"), ("networks", "set(dict)"), ("ulimits", "set(dict)"),
   ("device_read_bps", "set(dict)"), ("device_write_bps", "set(dict)"),
   ("device_read_iops", "set(dict)"), ("device_write_iops", "set(dict)")]

/-- The `default_values` table of `_parse_comparisons`
(docker_container.py, lines 2712 to 2714). -/
def default_values : List (String × String) :=
  [("stop_timeout", "ignore")]

/-- The default comparison entry computed for one option
(docker_container.py, lines 2722 to 2738): the type comes from
`explicit_types` or is derived from the declared option type, the comparison
defaults to `strict` for `list` and `value` types and to
`allow_more_present` otherwise, with `default_values` taking precedence. -/
def defaultEntry (option : String) (data : ArgData) : ComparisonEntry :=
  let typ :=
    match explicit_types.lookup option with
    | some t => t
    | none =>
      if data.typ = "list" then "set"
      else if data.typ = "dict" then "dict"
      else "value"
  let comparison :=
    match default_values.lookup option with
    | some c => c
    | none => if typ = "list" ∨ typ = "value" then "strict" else "allow_more_present"
  ⟨typ, comparison, option⟩

/-- Assignment into the `comparisons` dictionary: an existing key keeps its
position and is overwritten, a new key is appended, matching the insertion
semantics of a Python dictionary. -/
def dictSet (l : List (String × ComparisonEntry)) (k : String) (e : ComparisonEntry) :
    List (String × ComparisonEntry) :=
  if l.any (fun kv => decide (kv.1 = k)) then
    l.map (fun kv => if kv.1 = k then (k, e) else kv)
  else l ++ [(k, e)]

/-- In-place mutation of the comparison field of an existing entry, the Lean
image of `comparisons[key]["comparison"] = value`; every call site of the
source addresses a key that is present. -/
def setComparison (l : List (String × ComparisonEntry)) (k : String) (c : String) :
    List (String × ComparisonEntry) :=
  l.map (fun kv => if kv.1 = k then (kv.1, ⟨kv.2.typ, c, kv.2.name⟩) else kv)

/-- The defaults loop of `_parse_comparisons` (docker_container.py, lines
2715 to 2742): walk the argument spec, skip every non-container option other
than `networks`, give each remaining option its default comparison entry and
record the option and its aliases in `comp_aliases`.  The alias map is
returned as a function, matching dictionary lookup with
last-write-wins semantics. -/
def defaultsStep (nonContainer : List String)
    (acc : List (String × ComparisonEntry) × (String → Option String))
    (kv : String × ArgData) :
    List (String × ComparisonEntry) × (String → Option String) :=
  if kv.1 ∈ nonContainer ∧ kv.1 ≠ "networks" then acc
  else
    (dictSet acc.1 kv.1 (defaultEntry kv.1 kv.2),
     fun k => if k = kv.1 ∨ k ∈ kv.2.aliases then some kv.1 else acc.2 k)

def buildDefaults (spec : List (String × ArgData)) (nonContainer : List String) :
    List (String × ComparisonEntry) × (String → Option String) :=
  spec.foldl (defaultsStep nonContainer) ([], fun _ => none)

/-- The `all_options` set of `_parse_comparisons` (docker_container.py,
lines 2711 and 2715 to 2718): every option name and alias of the argument
spec, including non-container options. -/
def allOptions (spec : List (String × ArgData)) : List String :=
  spec.foldl (fun acc kv => (acc ++ [kv.1]) ++ kv.2.aliases) []

/-- The comparison table after the defaults and the legacy options
`ignore_image` and `purge_networks` (docker_container.py, lines 2743 to
2747). -/
def initialComparisons (spec : List (String × ArgData)) (nonContainer : List String)
    (ignoreImage purgeNetworks : Bool) : List (String × ComparisonEntry) :=
  let comps := (buildDefaults spec nonContainer).1
  let comps := if ignoreImage then setComparison comps "image" "ignore" else comps
  if purgeNetworks then setComparison comps "networks" "strict" else comps

/-- The failure message of the wildcard check (docker_container.py, line
2754); quotation marks of the original text are omitted. -/
def wildcardError : String :=
  "The wildcard can only be used with comparison modes strict and ignore!"

/-- The failure message for an unknown comparisons key (docker_container.py,
line 2773); quotation marks of the original text are omitted. -/
def unknownOptionError (key : String) : String :=
  "Unknown module option " ++ key ++ " in comparisons dict!"

/-- The failure message of the dead branch at docker_container.py, lines
2770 to 2772; quotation marks of the original text are omitted. -/
def notStateOptionError (key : String) : String :=
  "The module option " ++ key ++ " cannot be specified in the comparisons dict, " ++
    "since it does not correspond to containers state!"

/-- The failure message for two comparisons keys naming the same option
(docker_container.py, line 2775); quotation marks of the original text are
omitted. -/
def duplicateError (key otherKey keyMain : String) : String :=
  "Both " ++ key ++ " and " ++ otherKey ++ " (aliases of " ++ keyMain ++
    ") are specified in comparisons dict!"

/-- The failure message for `allow_more_present` on a scalar option
(docker_container.py, line 2782); quotation marks of the original text are
omitted. -/
def valueComparisonError (key value : String) : String :=
  "Option " ++ key ++ " is a value and not a set/list/dict, " ++
    "so its comparison cannot be " ++ value

/-- The failure message for an unknown comparison mode (docker_container.py,
line 2785); quotation marks of the original text are omitted. -/
def unknownModeError (value : String) : String :=
  "Unknown comparison mode " ++ value ++ "!"

/-- The wildcard step of `_parse_comparisons` (docker_container.py, lines
2750 to 2761): when the comparisons dictionary has a `*` key, its value must
be `strict` or `ignore` and is applied to every entry of the table, except
that `networks` keeps its entry when the `networks` module parameter was not
supplied. -/
def applyWildcard (comps : List (String × ComparisonEntry)) (networksSet : Bool)
    (cp : List (String × String)) : Except String (List (String × ComparisonEntry)) :=
  match cp.lookup "*" with
  | none => .ok comps
  | some value =>
    if value = "strict" ∨ value = "ignore" then
      .ok (comps.map (fun kv =>
        if kv.1 = "networks" ∧ networksSet = false then kv
        else (kv.1, ⟨kv.2.typ, value, kv.2.name⟩)))
    else .error wildcardError

/-- One step of the per-key override loop of `_parse_comparisons`
(docker_container.py, lines 2764 to 2785).  The state carries the comparison
table and `comp_aliases_used`.  A key that resolves through `comp_aliases`
to an already-used option fails; `strict` and `ignore` are always accepted;
`allow_more_present` is rejected for options of type `value`; any other mode
fails.  In the unknown-key branch the source tests `key_main` (then `None`)
for membership in `all_options`, a test that never succeeds; it is kept as
in the source. -/
def explicitStep (aliases : String → Option String) (allOpts : List String)
    (st : List (String × ComparisonEntry) × (String → Option String))
    (kv : String × String) :
    Except String (List (String × ComparisonEntry) × (String → Option String)) :=
  if kv.1 = "*" then .ok st
  else
    match aliases kv.1 with
    | none =>
      if allOpts.any (fun o => decide ((some o : Option String) = none)) then
        .error (notStateOptionError kv.1)
      else .error (unknownOptionError kv.1)
    | some keyMain =>
      match st.2 keyMain with
      | some otherKey => .error (duplicateError kv.1 otherKey keyMain)
      | none =>
        let used := fun k => if k = keyMain then some kv.1 else st.2 k
        if kv.2 = "strict" ∨ kv.2 = "ignore" then
          .ok (setComparison st.1 keyMain kv.2, used)
        else if kv.2 = "allow_more_present" then
          match st.1.lookup keyMain with
          | some entry =>
            if entry.typ = "value" then .error (valueComparisonError kv.1 kv.2)
            else .ok (setComparison st.1 keyMain kv.2, used)
          | none => .error ("KeyError: " ++ keyMain)
        else .error (unknownModeError kv.2)

/-- The per-key override loop of `_parse_comparisons` (docker_container.py,
lines 2762 to 2785), a fold of `explicitStep` starting from an empty
`comp_aliases_used`.  The `KeyError` branch of `explicitStep` is unreachable
for tables built by `buildDefaults`, whose alias map only names present
keys. -/
def applyExplicit (comps : List (String × ComparisonEntry))
    (aliases : String → Option String) (allOpts : List String)
    (cp : List (String × String)) : Except String (List (String × ComparisonEntry)) :=
  (cp.foldlM (explicitStep aliases allOpts) (comps, fun _ => none)).map
    (fun st => st.1)

/-- The implicit options added at the end of `_parse_comparisons`
(docker_container.py, lines 2786 to 2791): `publish_all_ports` is always
strict, `expected_ports` copies the comparison of `published_ports`, and
`disable_healthcheck` is ignored exactly when `healthcheck` is.  The source
indexes `published_ports` and `healthcheck` directly; a missing key would
raise, modelled as an error. -/
def addImplicit (comps : List (String × ComparisonEntry)) :
    Except String (List (String × ComparisonEntry)) :=
  let comps := dictSet comps "publish_all_ports" ⟨"value", "strict", "published_ports"⟩
  match comps.lookup "published_ports" with
  | none => .error "KeyError: published_ports"
  | some pp =>
    let comps := dictSet comps "expected_ports" ⟨"dict", pp.comparison, "expected_ports"⟩
    match comps.lookup "healthcheck" with
    | none => .error "KeyError: healthcheck"
    | some hc =>
      .ok (dictSet comps "disable_healthcheck"
        ⟨"value", if hc.comparison = "ignore" then "ignore" else "strict",
         "disable_healthcheck"⟩)

/-- `AnsibleDockerClientContainer._parse_comparisons`
(docker_container.py, lines 2692 to 2797): build the default table from the
argument spec, apply the legacy `ignore_image` and `purge_networks` options,
then, when a non-empty `comparisons` module parameter is present, apply its
wildcard entry first and its per-key entries second, and finally add the
implicit options.  `networksSet` states that the `networks` module parameter
is not `None`.  A `self.fail` call is modelled as an error result; the
legacy-override warnings of lines 2792 to 2796 do not affect the table and
are not modelled. -/
def parse_comparisons (spec : List (String × ArgData)) (nonContainer : List String)
    (ignoreImage purgeNetworks networksSet : Bool)
    (comparisonsParam : Option (List (String × String))) :
    Except String (List (String × ComparisonEntry)) :=
  let comps := initialComparisons spec nonContainer ignoreImage purgeNetworks
  match comparisonsParam with
  | none => addImplicit comps
  | some cp =>
    if cp.isEmpty then addImplicit comps
    else do
      let comps2 ← applyWildcard comps networksSet cp
      let comps3 ← applyExplicit comps2 (buildDefaults spec nonContainer).2
        (allOptions spec) cp
      addImplicit comps3

/-- Whether a parse result is a success, used to state that a configuration
is rejected without naming the particular failure message. -/
def exceptIsOk {β : Type} : Except String β → Bool
  | .ok _ => true
  | .error _ => false

end ParseComparisons

section RetryLoops

/-- The possible outcomes of one `self.client.remove_container` call as
distinguished by `ContainerManager.container_remove` (docker_container.py,
lines 2581 to 2604): success, `NotFound` (ignored), an `APIError` whose
explanation reports a paused container, an `APIError` reporting a removal
already in progress (ignored), any other `APIError`, or any other
exception. -/
inductive RemoveOutcome where
  | ok
  | notFound
  | pausedErr
  | inProgressErr
  | otherApiErr
  | otherErr
deriving DecidableEq

/-- The possible outcomes of one `self.client.stop` call as distinguished by
`ContainerManager.container_stop` (docker_container.py, lines 2647 to 2668):
success, an `APIError` reporting a paused container, any other `APIError`,
or any other exception. -/
inductive StopOutcome where
  | ok
  | pausedErr
  | otherApiErr
  | otherErr
deriving DecidableEq

/-- The result of a remove or stop operation: normal completion of the loop
or a fatal `self.fail`. -/
inductive LoopResult where
  | success
  | fatal (msg : String)
deriving DecidableEq

/-- The result of the retry loop together with the number of successful
unpause calls it performed. -/
structure RetryResult where
  outcome : LoopResult
  unpauses : Nat
deriving DecidableEq

/-- The retry loop of `ContainerManager.container_remove`
(docker_container.py, lines 2579 to 2606), for the non-check-mode path.
`attempts k` is the outcome of the remove call made with counter value `k`
and `unpauseOk k` tells whether the unpause issued after it succeeds.  A
paused failure with the counter already at 3 is fatal; otherwise the counter
is incremented, the container is unpaused and the call is retried.  The
counter never exceeds 3, which the invariant argument records and which
bounds the recursion. -/
def containerRemoveLoop (attempts : Nat → RemoveOutcome) (unpauseOk : Nat → Bool) :
    (count : Nat) → count ≤ 3 → RetryResult
  | count, h =>
    match attempts count with
    | .pausedErr =>
      if hc : count = 3 then
        ⟨.fatal "Error removing container (tried to unpause three times)", 0⟩
      else
        if unpauseOk count then
          let r := containerRemoveLoop attempts unpauseOk (count + 1)
            (by omega)
          ⟨r.outcome, r.unpauses + 1⟩
        else ⟨.fatal "Error unpausing container for removal", 0⟩
    | .ok => ⟨.success, 0⟩
    | .notFound => ⟨.success, 0⟩
    | .inProgressErr => ⟨.success, 0⟩
    | .otherApiErr => ⟨.fatal "Error removing container", 0⟩
    | .otherErr => ⟨.fatal "Error removing container", 0⟩
  termination_by count _ => 3 - count

/-- `ContainerManager.container_remove`, non-check-mode path: the loop is
entered with the counter at 0. -/
def container_remove (attempts : Nat → RemoveOutcome) (unpauseOk : Nat → Bool) :
    RetryResult :=
  containerRemoveLoop attempts unpauseOk 0 (by omega)

/-- The retry loop of `ContainerManager.container_stop`
(docker_container.py, lines 2645 to 2671), for the non-check-mode,
non-force-kill path; identical retry structure to the remove loop (the
fatal message of the source repeats the removal wording). -/
def containerStopLoop (attempts : Nat → StopOutcome) (unpauseOk : Nat → Bool) :
    (count : Nat) → count ≤ 3 → RetryResult
  | count, h =>
    match attempts count with
    | .pausedErr =>
      if hc : count = 3 then
        ⟨.fatal "Error removing container (tried to unpause three times)", 0⟩
      else
        if unpauseOk count then
          let r := containerStopLoop attempts unpauseOk (count + 1)
            (by omega)
          ⟨r.outcome, r.unpauses + 1⟩
        else ⟨.fatal "Error unpausing container for removal", 0⟩
    | .ok => ⟨.success, 0⟩
    | .otherApiErr => ⟨.fatal "Error stopping container", 0⟩
    | .otherErr => ⟨.fatal "Error stopping container", 0⟩
  termination_by count _ => 3 - count

/-- `ContainerManager.container_stop`, non-check-mode, non-force-kill path:
the loop is entered with the counter at 0. -/
def container_stop (attempts : Nat → StopOutcome) (unpauseOk : Nat → Bool) :
    RetryResult :=
  containerStopLoop attempts unpauseOk 0 (by omega)

end RetryLoops

section ListLemmas

variable {β : Type}

theorem lookup_eq_some_of_nodup {d : List (String × β)}
    (hn : (d.map Prod.fst).Nodup) {p : String × β} (hp : p ∈ d) :
    d.lookup p.1 = some p.2 := by
  induction d with
  | nil => cases hp
  | cons q rest ih =>
    rcases List.mem_cons.mp hp with rfl | hp2
    · simp [List.lookup]
    · have hq : q.1 ∉ rest.map Prod.fst := (List.nodup_cons.mp (by simpa using hn)).1
      have hne : p.1 ≠ q.1 := by
        intro he
        exact hq (he ▸ List.mem_map_of_mem Prod.fst hp2)
      simp only [List.lookup, beq_eq_false_iff_ne.mpr hne]
      exact ih (List.nodup_cons.mp (by simpa using hn)).2 hp2

theorem lookup_map_entry (g : String → β → β) :
    ∀ (l : List (String × β)) (k : String),
      List.lookup k (l.map (fun kv => (kv.1, g kv.1 kv.2)))
        = (List.lookup k l).map (g k)
  | [], _ => rfl
  | q :: rest, k => by
    by_cases h : k = q.1
    · simp [List.lookup, h]
    · simp only [List.map_cons, List.lookup, beq_eq_false_iff_ne.mpr h]
      exact lookup_map_entry g rest k

theorem lookup_append_aux :
    ∀ (l₁ l₂ : List (String × β)) (k : String),
      List.lookup k (l₁ ++ l₂)
        = (match List.lookup k l₁ with
           | some v => some v
           | none => List.lookup k l₂)
  | [], _, _ => rfl
  | q :: rest, l₂, k => by
    by_cases h : k = q.1
    · simp [List.lookup, h]
    · simp only [List.cons_append, List.lookup, beq_eq_false_iff_ne.mpr h]
      exact lookup_append_aux rest l₂ k

end ListLemmas

section ParseLemmas

theorem setComparison_eq_map (l : List (String × ComparisonEntry)) (k c) :
    setComparison l k c
      = l.map (fun kv =>
          (kv.1, if kv.1 = k then ⟨kv.2.typ, c, kv.2.name⟩ else kv.2)) := by
  unfold setComparison
  refine List.map_congr_left (fun kv _ => ?_)
  by_cases h : kv.1 = k
  · simp [h]
  · simp [h]

theorem lookup_setComparison (l : List (String × ComparisonEntry)) (k c km) :
    List.lookup km (setComparison l k c)
      = (List.lookup km l).map
          (fun e => if km = k then ⟨e.typ, c, e.name⟩ else e) := by
  rw [setComparison_eq_map,
    lookup_map_entry (fun x e => if x = k then ⟨e.typ, c, e.name⟩ else e) l km]

theorem lookup_setComparison_ne (l : List (String × ComparisonEntry)) (k c km)
    (h : km ≠ k) :
    List.lookup km (setComparison l k c) = List.lookup km l := by
  rw [lookup_setComparison]
  cases List.lookup km l with
  | none => rfl
  | some e => simp [h]

theorem dictSet_eq (l : List (String × ComparisonEntry)) (k e) :
    dictSet l k e
      = if l.any (fun kv => decide (kv.1 = k)) then
          l.map (fun kv => (kv.1, if kv.1 = k then e else kv.2))
        else l ++ [(k, e)] := by
  unfold dictSet
  split
  · refine List.map_congr_left (fun kv _ => ?_)
    by_cases h : kv.1 = k
    · simp [h]
    · simp [h]
  · rfl

theorem lookup_dictSet_ne (l : List (String × ComparisonEntry)) (k e km)
    (h : km ≠ k) :
    List.lookup km (dictSet l k e) = List.lookup km l := by
  rw [dictSet_eq]
  split
  · rw [lookup_map_entry (fun x b => if x = k then e else b) l km]
    cases List.lookup km l with
    | none => rfl
    | some b => simp [h]
  · rw [lookup_append_aux]
    cases hl : List.lookup km l with
    | some b => rfl
    | none => simp [List.lookup, beq_eq_false_iff_ne.mpr h]

end ParseLemmas

section ComparatorLemmas

variable {α : Type} [LinearOrder α]

theorem subDict_refl {d : List (String × α)} (hn : (d.map Prod.fst).Nodup) :
    subDict d d = true := by
  unfold subDict
  rw [List.all_eq_true]
  intro p hp
  exact decide_eq_true (lookup_eq_some_of_nodup hn hp)

theorem compare_generic_ignore (a b : PropValue α) (typ : String) :
    compare_generic a b "ignore" typ = true := by
  unfold compare_generic
  simp

theorem compare_generic_refl (v : PropValue α) (method typ : String)
    (hm : method = "strict" ∨ method = "ignore" ∨ method = "allow_more_present")
    (hwf : WellFormed v) :
    compare_generic v v method typ = true := by
  rcases hm with rfl | rfl | rfl
  · unfold compare_generic
    rw [if_neg (by decide : ¬("strict" : String) = "ignore"), if_pos rfl]
    by_cases h1 : typ = "set"
    · rw [if_pos h1]
      cases v <;> simp [List.Perm.refl]
    · rw [if_neg h1]
      by_cases h2 : typ = "set(dict)"
      · rw [if_pos h2]
        cases v <;> simp [List.Perm.refl]
      · rw [if_neg h2]
        simp
  · exact compare_generic_ignore v v typ
  · unfold compare_generic
    rw [if_neg (by decide : ¬("allow_more_present" : String) = "ignore"),
      if_neg (by decide : ¬("allow_more_present" : String) = "strict"), if_pos rfl]
    by_cases h1 : typ = "set"
    · rw [if_pos h1]
      cases v <;> simp [List.all_eq_true]
    · rw [if_neg h1]
      by_cases h2 : typ = "dict"
      · rw [if_pos h2]
        cases v with
        | dict d =>
          exact subDict_refl hwf
        | scalar a => simp
        | list l => simp
        | dictList l => simp
      · rw [if_neg h2]
        by_cases h3 : typ = "set(dict)"
        · rw [if_pos h3]
          cases v with
          | dictList l =>
            rw [List.all_eq_true]
            intro d hd
            rw [List.any_eq_true]
            exact ⟨d, hd, subDict_refl (hwf d hd)⟩
          | scalar a => simp
          | list l => simp
          | dict d => simp
        · rw [if_neg h3]
          simp

end ComparatorLemmas

section TrackerLemmas

variable {α : Type}

theorem mem_add {t : DifferenceTracker α} {k : String} {p c : PropValue α}
    {d : Difference α} (hd : d ∈ (t.add k p c).differences) :
    d ∈ t.differences ∨ d = ⟨k, p, c⟩ := by
  unfold DifferenceTracker.add at hd
  split at hd
  · rcases List.mem_map.mp hd with ⟨e, he, hfe⟩
    by_cases hek : e.property = k
    · right
      rw [← hfe, if_pos hek]
    · left
      rw [← hfe, if_neg hek]
      exact he
  · rcases List.mem_append.mp hd with h | h
    · exact Or.inl h
    · exact Or.inr (List.mem_singleton.mp h)

end TrackerLemmas

section ReconcileLemmas

variable {α : Type} [LinearOrder α]

theorem hdcStep_cases (parameters : String → Option (PropValue α))
    (supported : String → Bool) (comparisons : String → ComparisonEntry)
    (pmap : String → String) (t : DifferenceTracker α) (kv : String × PropValue α) :
    hdcStep parameters supported comparisons pmap t kv = t ∨
      (supported kv.1 = true ∧ ∃ p, parameters kv.1 = some p ∧
        compare_generic p kv.2 (comparisons (pmap kv.1)).comparison
          (comparisons (pmap kv.1)).typ = false ∧
        hdcStep parameters supported comparisons pmap t kv
          = t.add kv.1 (sortForDiff (comparisons (pmap kv.1)).typ p)
              (sortForDiff (comparisons (pmap kv.1)).typ kv.2)) := by
  unfold hdcStep
  by_cases hs : supported kv.1 = false
  · rw [if_pos hs]
    exact Or.inl rfl
  · rw [if_neg hs]
    have hs2 : supported kv.1 = true := by
      revert hs
      cases supported kv.1 <;> simp
    cases hp : parameters kv.1 with
    | none => exact Or.inl rfl
    | some p =>
      by_cases hc : compare_generic p kv.2 (comparisons (pmap kv.1)).comparison
          (comparisons (pmap kv.1)).typ = true
      · left
        simp [hc]
      · right
        have hc2 : compare_generic p kv.2 (comparisons (pmap kv.1)).comparison
            (comparisons (pmap kv.1)).typ = false := by
          revert hc
          cases compare_generic p kv.2 (comparisons (pmap kv.1)).comparison
            (comparisons (pmap kv.1)).typ <;> simp
        exact ⟨hs2, p, rfl, hc2, by simp [hc2]⟩

theorem hdcStep_skip (parameters : String → Option (PropValue α)) (supported comparisons pmap)
    (kv : String × PropValue α)
    (h : supported kv.1 = false ∨ parameters kv.1 = none ∨
      (∃ p, parameters kv.1 = some p ∧
        compare_generic p kv.2 (comparisons (pmap kv.1)).comparison
          (comparisons (pmap kv.1)).typ = true)) :
    ∀ t, hdcStep parameters supported comparisons pmap t kv = t := by
  intro t
  rcases hdcStep_cases parameters supported comparisons pmap t kv with heq |
    ⟨hsup, p, hp, hcmp, heq⟩
  · exact heq
  · rcases h with h | h | ⟨q, hq, hc⟩
    · rw [hsup] at h
      cases h
    · rw [hp] at h
      cases h
    · rw [hp] at hq
      cases hq
      rw [hcmp] at hc
      cases hc

theorem foldl_hdc_id (parameters : String → Option (PropValue α)) (supported comparisons pmap) :
    ∀ (cfg : List (String × PropValue α)) (t : DifferenceTracker α),
      (∀ kv ∈ cfg, ∀ t0, hdcStep parameters supported comparisons pmap t0 kv = t0) →
      cfg.foldl (hdcStep parameters supported comparisons pmap) t = t
  | [], _, _ => rfl
  | kv :: tl, t, h => by
    rw [List.foldl_cons, h kv (List.mem_cons_self kv tl) t]
    exact foldl_hdc_id parameters supported comparisons pmap tl t
      (fun kv2 h2 => h kv2 (List.mem_cons_of_mem kv h2))

theorem mem_differences_foldl (parameters : String → Option (PropValue α))
    (supported : String → Bool) (comparisons : String → ComparisonEntry)
    (pmap : String → String) :
    ∀ (cfg : List (String × PropValue α)) (t0 : DifferenceTracker α)
      (d : Difference α),
      d ∈ (cfg.foldl (hdcStep parameters supported comparisons pmap) t0).differences →
      d ∈ t0.differences ∨
        ∃ value p, (d.property, value) ∈ cfg ∧ supported d.property = true ∧
          parameters d.property = some p ∧
          compare_generic p value (comparisons (pmap d.property)).comparison
            (comparisons (pmap d.property)).typ = false ∧
          d.parameter = sortForDiff (comparisons (pmap d.property)).typ p ∧
          d.active = sortForDiff (comparisons (pmap d.property)).typ value
  | [], _, _, hd => Or.inl hd
  | kv :: tl, t0, d, hd => by
    rw [List.foldl_cons] at hd
    rcases mem_differences_foldl parameters supported comparisons pmap tl _ d hd with
      h | ⟨value, p, hmem, hrest⟩
    · rcases hdcStep_cases parameters supported comparisons pmap t0 kv with heq |
        ⟨hsup, p, hp, hcmp, heq⟩
      · rw [heq] at h
        exact Or.inl h
      · rw [heq] at h
        rcases mem_add h with h2 | rfl
        · exact Or.inl h2
        · exact Or.inr ⟨kv.2, p, List.mem_cons_self kv tl, hsup, hp, hcmp, rfl, rfl⟩
    · exact Or.inr ⟨value, p, List.mem_cons_of_mem kv hmem, hrest⟩

end ReconcileLemmas

section SortLemmas

variable {α : Type} [LinearOrder α]

theorem pairLe_total (p q : String × α) : pairLe p q ∨ pairLe q p := by
  rcases lt_trichotomy p.1 q.1 with h | h | h
  · exact Or.inl (Or.inl h)
  · rcases le_total p.2 q.2 with h2 | h2
    · exact Or.inl (Or.inr ⟨h, h2⟩)
    · exact Or.inr (Or.inr ⟨h.symm, h2⟩)
  · exact Or.inr (Or.inl h)

theorem pairLe_trans (p q r : String × α) (hpq : pairLe p q) (hqr : pairLe q r) :
    pairLe p r := by
  rcases hpq with h1 | ⟨h1, h1v⟩ <;> rcases hqr with h2 | ⟨h2, h2v⟩
  · exact Or.inl (lt_trans h1 h2)
  · exact Or.inl (h2 ▸ h1)
  · exact Or.inl (h1 ▸ h2)
  · exact Or.inr ⟨h1.trans h2, le_trans h1v h2v⟩

theorem pairLe_antisymm (p q : String × α) (hpq : pairLe p q) (hqp : pairLe q p) :
    p = q := by
  rcases hpq with h1 | ⟨h1, h1v⟩ <;> rcases hqp with h2 | ⟨h2, h2v⟩
  · exact absurd h2 (lt_asymm h1)
  · exact absurd h1 (h2 ▸ lt_irrefl p.1)
  · exact absurd h2 (h1 ▸ lt_irrefl p.1)
  · exact Prod.ext h1 (le_antisymm h1v h2v)

theorem itemsLe_total : ∀ x y : List (String × α), itemsLe x y ∨ itemsLe y x
  | [], _ => Or.inl trivial
  | _ :: _, [] => Or.inr trivial
  | p :: ps, q :: qs => by
    by_cases hpq : p = q
    · subst hpq
      rcases itemsLe_total ps qs with h | h
      · exact Or.inl (Or.inr ⟨rfl, h⟩)
      · exact Or.inr (Or.inr ⟨rfl, h⟩)
    · rcases pairLe_total p q with h | h
      · by_cases hqp : pairLe q p
        · exact absurd (pairLe_antisymm p q h hqp) hpq
        · exact Or.inl (Or.inl ⟨h, hqp⟩)
      · exact Or.inr (Or.inl ⟨h, fun hc => hpq (pairLe_antisymm p q hc h)⟩)

theorem itemsLe_trans : ∀ x y z : List (String × α),
    itemsLe x y → itemsLe y z → itemsLe x z
  | [], _, _, _, _ => trivial
  | _ :: _, [], _, hxy, _ => absurd hxy (fun h => h)
  | _ :: _, _ :: _, [], _, hyz => absurd hyz (fun h => h)
  | p :: ps, q :: qs, r :: rs, hxy, hyz => by
    rcases hxy with ⟨h1, h1n⟩ | ⟨rfl, h1⟩
    · rcases hyz with ⟨h2, h2n⟩ | ⟨rfl, h2⟩
      · exact Or.inl ⟨pairLe_trans p q r h1 h2, fun hc => h2n (pairLe_trans r p q hc h1)⟩
      · exact Or.inl ⟨h1, h1n⟩
    · rcases hyz with ⟨h2, h2n⟩ | ⟨rfl, h2⟩
      · exact Or.inl ⟨h2, h2n⟩
      · exact Or.inr ⟨rfl, itemsLe_trans ps qs rs h1 h2⟩

theorem itemsLe_antisymm : ∀ x y : List (String × α),
    itemsLe x y → itemsLe y x → x = y
  | [], [], _, _ => rfl
  | [], _ :: _, _, hyx => absurd hyx (fun h => h)
  | _ :: _, [], hxy, _ => absurd hxy (fun h => h)
  | p :: ps, q :: qs, hxy, hyx => by
    rcases hxy with ⟨h1, h1n⟩ | ⟨rfl, h1⟩
    · rcases hyx with ⟨h2, h2n⟩ | ⟨rfl, h2⟩
      · exact absurd h1 h2n
      · exact absurd h1 h1n
    · rcases hyx with ⟨h2, h2n⟩ | ⟨h2e, h2⟩
      · exact absurd h2 h2n
      · rw [itemsLe_antisymm ps qs h1 h2]

theorem insertionSort_eq_of_perm {β : Type} (r : β → β → Prop) [DecidableRel r]
    [IsTotal β r] [IsTrans β r] [IsAntisymm β r] {l l2 : List β}
    (h : List.Perm l l2) :
    List.insertionSort r l = List.insertionSort r l2 :=
  List.eq_of_perm_of_sorted
    ((List.perm_insertionSort r l).trans (h.trans (List.perm_insertionSort r l2).symm))
    (List.sorted_insertionSort r l) (List.sorted_insertionSort r l2)

theorem eq_of_perm_of_sorted_on {β : Type} {r : β → β → Prop} :
    ∀ {l₁ l₂ : List β},
      (∀ a ∈ l₁, ∀ b ∈ l₁, r a b → r b a → a = b) →
      List.Perm l₁ l₂ → List.Sorted r l₁ → List.Sorted r l₂ → l₁ = l₂ := by
  intro l₁
  induction l₁ with
  | nil =>
    intro l₂ _ hp _ _
    exact hp.nil_eq
  | cons a t₁ ih =>
    intro l₂ hanti hp hs₁ hs₂
    cases l₂ with
    | nil => cases hp.symm.nil_eq
    | cons b t₂ =>
      have hab : a = b := by
        have ha2 : a ∈ b :: t₂ := hp.subset (List.mem_cons_self a t₁)
        have hb1 : b ∈ a :: t₁ := hp.symm.subset (List.mem_cons_self b t₂)
        rcases List.mem_cons.mp ha2 with h | ha3
        · exact h
        rcases List.mem_cons.mp hb1 with h | hb3
        · exact h.symm
        exact hanti a (List.mem_cons_self a t₁) b (List.mem_cons_of_mem a hb3)
          (List.rel_of_sorted_cons hs₁ b hb3) (List.rel_of_sorted_cons hs₂ a ha3)
      subst hab
      have hp2 : List.Perm t₁ t₂ := List.Perm.cons_inv hp
      rw [ih (fun x hx y hy => hanti x (List.mem_cons_of_mem a hx)
        y (List.mem_cons_of_mem a hy)) hp2 hs₁.of_cons hs₂.of_cons]

theorem sortForDiff_set_perm {l l2 : List α} (h : List.Perm l l2) :
    sortForDiff "set" (PropValue.list l) = sortForDiff "set" (PropValue.list l2) := by
  haveI : IsTotal α scalarLe := ⟨le_total⟩
  haveI : IsTrans α scalarLe := ⟨fun _ _ _ => le_trans⟩
  haveI : IsAntisymm α scalarLe := ⟨fun _ _ => le_antisymm⟩
  unfold sortForDiff
  rw [if_pos rfl, if_pos rfl]
  show PropValue.list (List.insertionSort scalarLe l)
    = PropValue.list (List.insertionSort scalarLe l2)
  exact congrArg PropValue.list (insertionSort_eq_of_perm scalarLe h)

theorem sortForDiff_setdict_perm {l l2 : List (List (String × α))}
    (hc : ∀ d ∈ l, List.Sorted pairLe d) (h : List.Perm l l2) :
    sortForDiff "set(dict)" (PropValue.dictList l)
      = sortForDiff "set(dict)" (PropValue.dictList l2) := by
  unfold sortForDiff
  rw [if_neg (by decide : ¬("set(dict)" : String) = "set"),
    if_neg (by decide : ¬("set(dict)" : String) = "set"), if_pos rfl, if_pos rfl]
  have hsorted : ∀ m : List (List (String × α)),
      List.Sorted dictLe (List.insertionSort dictLe m) := by
    haveI : IsTotal (List (String × α)) dictLe := ⟨fun _ _ => itemsLe_total _ _⟩
    haveI : IsTrans (List (String × α)) dictLe := ⟨fun _ _ _ => itemsLe_trans _ _ _⟩
    exact fun m => List.sorted_insertionSort dictLe m
  have heq : List.insertionSort dictLe l = List.insertionSort dictLe l2 := by
    refine eq_of_perm_of_sorted_on ?_ ?_ (hsorted l) (hsorted l2)
    · intro x hx y hy hxy hyx
      have hx2 : x ∈ l := (List.mem_insertionSort dictLe).mp hx
      have hy2 : y ∈ l := (List.mem_insertionSort dictLe).mp hy
      have hxs := (hc x hx2).insertionSort_eq
      have hys := (hc y hy2).insertionSort_eq
      have := itemsLe_antisymm _ _ hxy hyx
      rw [hxs, hys] at this
      exact this
    · exact ((List.perm_insertionSort dictLe l).trans
        (h.trans (List.perm_insertionSort dictLe l2).symm))
  show PropValue.dictList (List.insertionSort dictLe l)
    = PropValue.dictList (List.insertionSort dictLe l2)
  exact congrArg PropValue.dictList heq

end SortLemmas

section ParseLoopLemmas

theorem lookup_isSome_of_key {β : Type} :
    ∀ {l : List (String × β)} {k : String},
      l.any (fun kv => decide (kv.1 = k)) = true → ∃ b, List.lookup k l = some b := by
  intro l
  induction l with
  | nil => intro k h; cases h
  | cons q rest ih =>
    intro k h
    by_cases hq : q.1 = k
    · exact ⟨q.2, by simp [List.lookup, hq.symm]⟩
    · have h2 : rest.any (fun kv => decide (kv.1 = k)) = true := by
        simpa [List.any_cons, hq] using h
      rcases ih h2 with ⟨b, hb⟩
      refine ⟨b, ?_⟩
      have hk : k ≠ q.1 := fun he => hq he.symm
      simp only [List.lookup, beq_eq_false_iff_ne.mpr hk]
      exact hb

theorem lookup_eq_none_of_no_key {β : Type} :
    ∀ {l : List (String × β)} {k : String},
      l.any (fun kv => decide (kv.1 = k)) = false → List.lookup k l = none := by
  intro l
  induction l with
  | nil => intro k _; rfl
  | cons q rest ih =>
    intro k h
    rw [List.any_cons] at h
    rcases Bool.or_eq_false_iff.mp h with ⟨h1, h2⟩
    have hk : k ≠ q.1 := by
      intro he
      rw [decide_eq_false_iff_not] at h1
      exact h1 he.symm
    simp only [List.lookup, beq_eq_false_iff_ne.mpr hk]
    exact ih h2

theorem lookup_dictSet_self (l : List (String × ComparisonEntry)) (k e) :
    List.lookup k (dictSet l k e) = some e := by
  rw [dictSet_eq]
  split
  · rename_i hany
    rw [lookup_map_entry (fun x b => if x = k then e else b) l k]
    rcases lookup_isSome_of_key hany with ⟨b, hb⟩
    rw [hb]
    simp
  · rename_i hany
    rw [lookup_append_aux, lookup_eq_none_of_no_key (Bool.not_eq_true _ |>.mp hany)]
    simp [List.lookup]

theorem explicitStep_ok {aliases : String → Option String} {allOpts : List String}
    {st st2 : List (String × ComparisonEntry) × (String → Option String)}
    {kv : String × String}
    (h : explicitStep aliases allOpts st kv = .ok st2) :
    (kv.1 = "*" ∧ st2 = st) ∨
      (kv.1 ≠ "*" ∧ ∃ km, aliases kv.1 = some km ∧ st.2 km = none ∧
        st2.1 = setComparison st.1 km kv.2 ∧
        st2.2 = fun k => if k = km then some kv.1 else st.2 k) := by
  unfold explicitStep at h
  split at h
  · rename_i hstar
    injection h with h2
    exact Or.inl ⟨hstar, h2.symm⟩
  · rename_i hstar
    split at h
    · split at h <;> exact Except.noConfusion h
    · rename_i km hal
      split at h
      · exact Except.noConfusion h
      · rename_i hus
        split at h
        · injection h with h2
          exact Or.inr ⟨hstar, km, hal, hus, by rw [← h2], by rw [← h2]⟩
        · split at h
          · split at h
            · rename_i entry hlk
              split at h
              · exact Except.noConfusion h
              · injection h with h2
                exact Or.inr ⟨hstar, km, hal, hus, by rw [← h2], by rw [← h2]⟩
            · exact Except.noConfusion h
          · exact Except.noConfusion h

theorem foldlM_error_of_used {aliases : String → Option String} {allOpts : List String} :
    ∀ (cp : List (String × String))
      (st : List (String × ComparisonEntry) × (String → Option String))
      (k v km : String),
      (k, v) ∈ cp → k ≠ "*" → aliases k = some km → st.2 km ≠ none →
      ∃ msg, cp.foldlM (explicitStep aliases allOpts) st = .error msg
  | [], _, _, _, _, hmem, _, _, _ => absurd hmem (List.not_mem_nil _)
  | (k0, v0) :: tl, st, k, v, km, hmem, hstar, hal, hused => by
    cases hstep : explicitStep aliases allOpts st (k0, v0) with
    | error msg =>
      exact ⟨msg, by rw [List.foldlM_cons, hstep]; rfl⟩
    | ok st2 =>
      have hrest : ∃ msg, tl.foldlM (explicitStep aliases allOpts) st2 = .error msg := by
        rcases List.mem_cons.mp hmem with heq | hmem2
        · have hk : k = k0 := congrArg Prod.fst heq
          have hv : v = v0 := congrArg Prod.snd heq
          rcases explicitStep_ok hstep with ⟨hstar2, _⟩ | ⟨_, km0, hal0, hus0, _, _⟩
          · exact absurd (hk ▸ hstar2) hstar
          · rw [← hk] at hal0
            rw [hal] at hal0
            injection hal0 with hkm
            rw [hkm] at hused
            exact absurd hus0 hused
        · rcases explicitStep_ok hstep with ⟨_, heq2⟩ | ⟨_, km0, hal0, hus0, _, hst2⟩
          · refine foldlM_error_of_used tl st2 k v km hmem2 hstar hal ?_
            rw [heq2]
            exact hused
          · refine foldlM_error_of_used tl st2 k v km hmem2 hstar hal ?_
            rw [hst2]
            by_cases hkm : km = km0
            · simp [hkm]
            · simpa [hkm] using hused
      rcases hrest with ⟨msg, hmsg⟩
      refine ⟨msg, ?_⟩
      rw [List.foldlM_cons, hstep]
      exact hmsg

theorem foldlM_ok_preserves {aliases : String → Option String} {allOpts : List String} :
    ∀ (cp : List (String × String))
      (st stf : List (String × ComparisonEntry) × (String → Option String))
      (km : String),
      cp.foldlM (explicitStep aliases allOpts) st = .ok stf →
      st.2 km ≠ none →
      List.lookup km stf.1 = List.lookup km st.1
  | [], st, stf, km, h, _ => by
    rw [List.foldlM_nil] at h
    injection h with h2
    rw [← h2]
  | (k0, v0) :: tl, st, stf, km, h, hused => by
    rw [List.foldlM_cons] at h
    cases hstep : explicitStep aliases allOpts st (k0, v0) with
    | error msg =>
      rw [hstep] at h
      exact Except.noConfusion h
    | ok st2 =>
      rw [hstep] at h
      have h3 : tl.foldlM (explicitStep aliases allOpts) st2 = .ok stf := h
      rcases explicitStep_ok hstep with ⟨_, heq2⟩ | ⟨_, km0, hal0, hus0, hst1, hst2⟩
      · rw [heq2] at h3
        exact foldlM_ok_preserves tl st stf km h3 hused
      · have hkm : km ≠ km0 := by
          intro he
          rw [he] at hused
          exact hused hus0
        have hpres := foldlM_ok_preserves tl st2 stf km h3 (by
          rw [hst2]
          simpa [hkm] using hused)
        rw [hpres, hst1, lookup_setComparison_ne st.1 km0 v0 km hkm]

theorem foldlM_ok_override {aliases : String → Option String} {allOpts : List String} :
    ∀ (cp : List (String × String))
      (st stf : List (String × ComparisonEntry) × (String → Option String))
      (key v km : String) (e0 : ComparisonEntry),
      cp.foldlM (explicitStep aliases allOpts) st = .ok stf →
      (key, v) ∈ cp → key ≠ "*" → aliases key = some km →
      List.lookup km st.1 = some e0 →
      ∃ e1 : ComparisonEntry, List.lookup km stf.1 = some e1 ∧ e1.comparison = v
  | [], _, _, _, _, _, _, _, hmem, _, _, _ => absurd hmem (List.not_mem_nil _)
  | (k0, v0) :: tl, st, stf, key, v, km, e0, h, hmem, hstar, hal, hlk => by
    rw [List.foldlM_cons] at h
    cases hstep : explicitStep aliases allOpts st (k0, v0) with
    | error msg =>
      rw [hstep] at h
      exact Except.noConfusion h
    | ok st2 =>
      rw [hstep] at h
      have h3 : tl.foldlM (explicitStep aliases allOpts) st2 = .ok stf := h
      rcases List.mem_cons.mp hmem with heq | hmem2
      · have hk : key = k0 := congrArg Prod.fst heq
        have hv : v = v0 := congrArg Prod.snd heq
        rcases explicitStep_ok hstep with ⟨hstar2, _⟩ | ⟨_, km0, hal0, hus0, hst1, hst2⟩
        · exact absurd (hk ▸ hstar2) hstar
        · rw [← hk] at hal0
          rw [hal] at hal0
          injection hal0 with hkm
          subst hkm
          have hlk2 : List.lookup km st2.1 = some ⟨e0.typ, v, e0.name⟩ := by
            rw [hst1, lookup_setComparison st.1 km v0 km, hlk, ← hv]
            simp
          have hpres := foldlM_ok_preserves tl st2 stf km h3 (by
            rw [hst2]
            simp)
          exact ⟨⟨e0.typ, v, e0.name⟩, by rw [hpres, hlk2], rfl⟩
      · rcases explicitStep_ok hstep with ⟨_, heq2⟩ | ⟨_, km0, hal0, hus0, hst1, hst2⟩
        · rw [heq2] at h3
          exact foldlM_ok_override tl st stf key v km e0 h3 hmem2 hstar hal hlk
        · by_cases hkm : km0 = km
          · subst hkm
            rcases foldlM_error_of_used tl st2 key v km0 hmem2 hstar hal (by
              rw [hst2]
              simp) with ⟨msg, hmsg⟩
            rw [hmsg] at h3
            exact Except.noConfusion h3
          · have hne : km ≠ km0 := fun he => hkm he.symm
            refine foldlM_ok_override tl st2 stf key v km e0 h3 hmem2 hstar hal ?_
            rw [hst1, lookup_setComparison_ne st.1 km0 v0 km hne]
            exact hlk

theorem foldlM_error_of_dup {aliases : String → Option String} {allOpts : List String} :
    ∀ (cp : List (String × String))
      (st : List (String × ComparisonEntry) × (String → Option String))
      (k1 v1 k2 v2 km : String),
      (k1, v1) ∈ cp → (k2, v2) ∈ cp → k1 ≠ k2 → k1 ≠ "*" → k2 ≠ "*" →
      aliases k1 = some km → aliases k2 = some km →
      ∃ msg, cp.foldlM (explicitStep aliases allOpts) st = .error msg
  | [], _, _, _, _, _, _, hmem, _, _, _, _, _, _ => absurd hmem (List.not_mem_nil _)
  | (k0, v0) :: tl, st, k1, v1, k2, v2, km, hm1, hm2, hne, hs1, hs2, ha1, ha2 => by
    cases hstep : explicitStep aliases allOpts st (k0, v0) with
    | error msg =>
      exact ⟨msg, by rw [List.foldlM_cons, hstep]; rfl⟩
    | ok st2 =>
      have hrest : ∃ msg, tl.foldlM (explicitStep aliases allOpts) st2 = .error msg := by
        rcases List.mem_cons.mp hm1 with he1 | hm1t
        · rcases List.mem_cons.mp hm2 with he2 | hm2t
          · have : k1 = k2 :=
              (congrArg Prod.fst he1).trans (congrArg Prod.fst he2).symm
            exact absurd this hne
          · have hk : k1 = k0 := congrArg Prod.fst he1
            rcases explicitStep_ok hstep with ⟨hstar2, _⟩ | ⟨_, km0, hal0, _, _, hst2⟩
            · exact absurd (hk ▸ hstar2) hs1
            · rw [← hk] at hal0
              rw [ha1] at hal0
              injection hal0 with hkm
              refine foldlM_error_of_used tl st2 k2 v2 km hm2t hs2 ha2 ?_
              rw [hst2, ← hkm]
              simp
        · rcases List.mem_cons.mp hm2 with he2 | hm2t
          · have hk : k2 = k0 := congrArg Prod.fst he2
            rcases explicitStep_ok hstep with ⟨hstar2, _⟩ | ⟨_, km0, hal0, _, _, hst2⟩
            · exact absurd (hk ▸ hstar2) hs2
            · rw [← hk] at hal0
              rw [ha2] at hal0
              injection hal0 with hkm
              refine foldlM_error_of_used tl st2 k1 v1 km hm1t hs1 ha1 ?_
              rw [hst2, ← hkm]
              simp
          · exact foldlM_error_of_dup tl st2 k1 v1 k2 v2 km hm1t hm2t hne hs1 hs2 ha1 ha2
      rcases hrest with ⟨msg, hmsg⟩
      refine ⟨msg, ?_⟩
      rw [List.foldlM_cons, hstep]
      exact hmsg

theorem addImplicit_lookup_ne {comps res : List (String × ComparisonEntry)} {km : String}
    (h : addImplicit comps = .ok res)
    (h1 : km ≠ "publish_all_ports") (h2 : km ≠ "expected_ports")
    (h3 : km ≠ "disable_healthcheck") :
    List.lookup km res = List.lookup km comps := by
  simp only [addImplicit] at h
  split at h
  · exact Except.noConfusion h
  · split at h
    · exact Except.noConfusion h
    · injection h with h4
      rw [← h4, lookup_dictSet_ne _ _ _ _ h3, lookup_dictSet_ne _ _ _ _ h2,
        lookup_dictSet_ne _ _ _ _ h1]

theorem defaultsStep_inv (nc : List String)
    (init : List (String × ComparisonEntry) × (String → Option String))
    (hinv : ∀ k km, init.2 k = some km → ∃ e, List.lookup km init.1 = some e)
    (kv0 : String × ArgData) :
    ∀ k km, (defaultsStep nc init kv0).2 k = some km →
      ∃ e, List.lookup km (defaultsStep nc init kv0).1 = some e := by
  intro k km h
  unfold defaultsStep at h ⊢
  by_cases hskip : kv0.1 ∈ nc ∧ kv0.1 ≠ "networks"
  · rw [if_pos hskip] at h ⊢
    exact hinv k km h
  · rw [if_neg hskip] at h ⊢
    have h2 : (if k = kv0.1 ∨ k ∈ kv0.2.aliases then some kv0.1 else init.2 k)
        = some km := h
    show ∃ e, List.lookup km (dictSet init.1 kv0.1 (defaultEntry kv0.1 kv0.2)) = some e
    by_cases hk : k = kv0.1 ∨ k ∈ kv0.2.aliases
    · rw [if_pos hk] at h2
      injection h2 with h3
      subst h3
      exact ⟨defaultEntry kv0.1 kv0.2, lookup_dictSet_self init.1 kv0.1 _⟩
    · rw [if_neg hk] at h2
      rcases hinv k km h2 with ⟨e, he⟩
      by_cases hkm : km = kv0.1
      · exact ⟨defaultEntry kv0.1 kv0.2, hkm ▸ lookup_dictSet_self init.1 kv0.1 _⟩
      · exact ⟨e, by rw [lookup_dictSet_ne _ _ _ _ hkm]; exact he⟩

theorem foldl_defaultsStep_inv (nc : List String) :
    ∀ (spec : List (String × ArgData))
      (init : List (String × ComparisonEntry) × (String → Option String)),
      (∀ k km, init.2 k = some km → ∃ e, List.lookup km init.1 = some e) →
      ∀ k km, (spec.foldl (defaultsStep nc) init).2 k = some km →
        ∃ e, List.lookup km (spec.foldl (defaultsStep nc) init).1 = some e
  | [], _, hinv, k, km, h => hinv k km h
  | kv0 :: tl, init, hinv, k, km, h => by
    rw [List.foldl_cons] at h ⊢
    exact foldl_defaultsStep_inv nc tl (defaultsStep nc init kv0)
      (defaultsStep_inv nc init hinv kv0) k km h

theorem buildDefaults_lookup_isSome (spec : List (String × ArgData)) (nc : List String)
    (k km : String) (h : (buildDefaults spec nc).2 k = some km) :
    ∃ e, List.lookup km (buildDefaults spec nc).1 = some e := by
  unfold buildDefaults at h ⊢
  exact foldl_defaultsStep_inv nc spec ([], fun _ => none)
    (fun _ _ h2 => Option.noConfusion h2) k km h

end ParseLoopLemmas

section ParseStructureLemmas

theorem exceptBindOk {β γ : Type} (x : β) (f : β → Except String γ) :
    (Except.ok x >>= f) = f x := rfl

theorem exceptBindError {β γ : Type} (m : String) (f : β → Except String γ) :
    ((Except.error m : Except String β) >>= f) = .error m := rfl

theorem parse_eq_bind (spec : List (String × ArgData)) (nc : List String)
    (ii pn ns : Bool) (cp : List (String × String)) (hne : cp ≠ []) :
    parse_comparisons spec nc ii pn ns (some cp)
      = (applyWildcard (initialComparisons spec nc ii pn) ns cp >>= fun c2 =>
          applyExplicit c2 (buildDefaults spec nc).2 (allOptions spec) cp >>= fun c3 =>
          addImplicit c3) := by
  cases cp with
  | nil => exact absurd rfl hne
  | cons hd tl => rfl

theorem lookup_initialComparisons_isSome (spec : List (String × ArgData))
    (nc : List String) (ii pn : Bool) (km : String) {e0 : ComparisonEntry}
    (h : List.lookup km (buildDefaults spec nc).1 = some e0) :
    ∃ e, List.lookup km (initialComparisons spec nc ii pn) = some e := by
  simp only [initialComparisons]
  split_ifs with h1 h2 h3
  · rw [lookup_setComparison, lookup_setComparison, h]
    exact ⟨_, rfl⟩
  · rw [lookup_setComparison, h]
    exact ⟨_, rfl⟩
  · rw [lookup_setComparison, h]
    exact ⟨_, rfl⟩
  · exact ⟨e0, h⟩

theorem applyWildcard_ok_lookup {comps : List (String × ComparisonEntry)} {ns : Bool}
    {cp : List (String × String)} {comps2 : List (String × ComparisonEntry)}
    (h : applyWildcard comps ns cp = .ok comps2) (km : String) :
    List.lookup km comps2 = List.lookup km comps ∨
      ∃ w, List.lookup km comps2
        = (List.lookup km comps).map
            (fun e => if km = "networks" ∧ ns = false then e else ⟨e.typ, w, e.name⟩) := by
  unfold applyWildcard at h
  split at h
  · injection h with h2
    left
    rw [← h2]
  · rename_i w hw
    split at h
    · injection h with h2
      right
      refine ⟨w, ?_⟩
      rw [← h2]
      have hmap : comps.map (fun kv =>
          if kv.1 = "networks" ∧ ns = false then kv
          else (kv.1, ⟨kv.2.typ, w, kv.2.name⟩))
        = comps.map (fun kv =>
            (kv.1, if kv.1 = "networks" ∧ ns = false then kv.2
                   else ⟨kv.2.typ, w, kv.2.name⟩)) := by
        refine List.map_congr_left (fun kv _ => ?_)
        by_cases hkv : kv.1 = "networks" ∧ ns = false
        · rw [if_pos hkv, if_pos hkv]
        · rw [if_neg hkv, if_neg hkv]
      rw [hmap, lookup_map_entry
        (fun x e => if x = "networks" ∧ ns = false then e else ⟨e.typ, w, e.name⟩) comps km]
    · exact Except.noConfusion h

theorem applyWildcard_lookup_of_star {comps : List (String × ComparisonEntry)}
    {ns : Bool} {cp : List (String × String)} {w : String}
    (hw : cp.lookup "*" = some w) (hv : w = "strict" ∨ w = "ignore") (km : String) :
    (applyWildcard comps ns cp).map (fun r => List.lookup km r)
      = .ok ((List.lookup km comps).map
          (fun e => if km = "networks" ∧ ns = false then e else ⟨e.typ, w, e.name⟩)) := by
  simp only [applyWildcard, hw]
  rw [if_pos hv]
  have hmap : comps.map (fun kv =>
      if kv.1 = "networks" ∧ ns = false then kv
      else (kv.1, ⟨kv.2.typ, w, kv.2.name⟩))
    = comps.map (fun kv =>
        (kv.1, if kv.1 = "networks" ∧ ns = false then kv.2
               else ⟨kv.2.typ, w, kv.2.name⟩)) := by
    refine List.map_congr_left (fun kv _ => ?_)
    by_cases hkv : kv.1 = "networks" ∧ ns = false
    · rw [if_pos hkv, if_pos hkv]
    · rw [if_neg hkv, if_neg hkv]
  show Except.ok (List.lookup km (comps.map _)) = _
  rw [hmap, lookup_map_entry
    (fun x e => if x = "networks" ∧ ns = false then e else ⟨e.typ, w, e.name⟩) comps km]

end ParseStructureLemmas

section RetryLemmas

theorem removeLoop_pausedAll (attempts : Nat → RemoveOutcome) (unpauseOk : Nat → Bool)
    (ha : ∀ k, k ≤ 3 → attempts k = .pausedErr)
    (hu : ∀ k, k < 3 → unpauseOk k = true) :
    ∀ (count : Nat) (h : count ≤ 3),
      containerRemoveLoop attempts unpauseOk count h
        = ⟨.fatal "Error removing container (tried to unpause three times)", 3 - count⟩
  | count, h => by
    rw [containerRemoveLoop.eq_1]
    simp only [ha count h]
    by_cases hc : count = 3
    · subst hc
      rfl
    · rw [dif_neg hc, hu count (by omega), if_pos rfl]
      simp only [removeLoop_pausedAll attempts unpauseOk ha hu (count + 1) (by omega)]
      have harith : 3 - (count + 1) + 1 = 3 - count := by omega
      simp only [harith]
  termination_by count _ => 3 - count
  decreasing_by omega

theorem stopLoop_pausedAll (attempts : Nat → StopOutcome) (unpauseOk : Nat → Bool)
    (ha : ∀ k, k ≤ 3 → attempts k = .pausedErr)
    (hu : ∀ k, k < 3 → unpauseOk k = true) :
    ∀ (count : Nat) (h : count ≤ 3),
      containerStopLoop attempts unpauseOk count h
        = ⟨.fatal "Error removing container (tried to unpause three times)", 3 - count⟩
  | count, h => by
    rw [containerStopLoop.eq_1]
    simp only [ha count h]
    by_cases hc : count = 3
    · subst hc
      rfl
    · rw [dif_neg hc, hu count (by omega), if_pos rfl]
      simp only [stopLoop_pausedAll attempts unpauseOk ha hu (count + 1) (by omega)]
      have harith : 3 - (count + 1) + 1 = 3 - count := by omega
      simp only [harith]
  termination_by count _ => 3 - count
  decreasing_by omega

theorem removeLoop_congr (a a2 : Nat → RemoveOutcome) (u u2 : Nat → Bool)
    (ha : ∀ k, k ≤ 3 → a k = a2 k) (hu : ∀ k, k < 3 → u k = u2 k) :
    ∀ (count : Nat) (h : count ≤ 3),
      containerRemoveLoop a u count h = containerRemoveLoop a2 u2 count h
  | count, h => by
    rw [containerRemoveLoop.eq_1 a u count h, containerRemoveLoop.eq_1 a2 u2 count h,
      ← ha count h]
    cases hval : a count with
    | pausedErr =>
      by_cases hc : count = 3
      · subst hc
        rfl
      · simp only [dif_neg hc, ← hu count (by omega)]
        by_cases hub : u count = true
        · simp only [hub, if_true]
          simp only [removeLoop_congr a a2 u u2 ha hu (count + 1) (by omega)]
        · have hub2 : u count = false := by
            revert hub
            cases u count <;> simp
          simp [hub2]
    | ok => rfl
    | notFound => rfl
    | inProgressErr => rfl
    | otherApiErr => rfl
    | otherErr => rfl
  termination_by count _ => 3 - count
  decreasing_by omega

theorem stopLoop_congr (a a2 : Nat → StopOutcome) (u u2 : Nat → Bool)
    (ha : ∀ k, k ≤ 3 → a k = a2 k) (hu : ∀ k, k < 3 → u k = u2 k) :
    ∀ (count : Nat) (h : count ≤ 3),
      containerStopLoop a u count h = containerStopLoop a2 u2 count h
  | count, h => by
    rw [containerStopLoop.eq_1 a u count h, containerStopLoop.eq_1 a2 u2 count h,
      ← ha count h]
    cases hval : a count with
    | pausedErr =>
      by_cases hc : count = 3
      · subst hc
        rfl
      · simp only [dif_neg hc, ← hu count (by omega)]
        by_cases hub : u count = true
        · simp only [hub, if_true]
          simp only [stopLoop_congr a a2 u u2 ha hu (count + 1) (by omega)]
        · have hub2 : u count = false := by
            revert hub
            cases u count <;> simp
          simp [hub2]
    | ok => rfl
    | otherApiErr => rfl
    | otherErr => rfl
  termination_by count _ => 3 - count
  decreasing_by omega

end RetryLemmas

/-- C1: for every property-spec table, the reconciliation comparison of
`Container.has_different_configuration` returns `changed` true exactly when
the accumulated DifferenceTracker is non-empty; and whenever the desired and
the normalized observed state agree on every property (for well-formed
dictionary payloads and the three comparison strategies of the spec), it
returns `changed = false` with an empty difference list. -/
theorem claim_C1 {α : Type} [LinearOrder α] :
    (∀ (cfg : List (String × PropValue α)) (parameters : String → Option (PropValue α))
       (supported : String → Bool) (comparisons : String → ComparisonEntry)
       (pmap : String → String),
       (has_different_configuration cfg parameters supported comparisons pmap).1
         = !(has_different_configuration cfg parameters supported comparisons pmap).2.isEmpty)
    ∧
    (∀ (cfg : List (String × PropValue α)) (parameters : String → Option (PropValue α))
       (supported : String → Bool) (comparisons : String → ComparisonEntry)
       (pmap : String → String),
       (∀ k, (comparisons (pmap k)).comparison = "strict" ∨
             (comparisons (pmap k)).comparison = "ignore" ∨
             (comparisons (pmap k)).comparison = "allow_more_present") →
       (∀ kv ∈ cfg, WellFormed kv.2) →
       (∀ kv ∈ cfg, ∀ p, parameters kv.1 = some p → p = kv.2) →
       has_different_configuration cfg parameters supported comparisons pmap
         = (false, ⟨[]⟩)) := by
  constructor
  · intro cfg parameters supported comparisons pmap
    rfl
  · intro cfg parameters supported comparisons pmap hvalid hwf heq
    have hfold : cfg.foldl (hdcStep parameters supported comparisons pmap)
        (⟨[]⟩ : DifferenceTracker α) = ⟨[]⟩ := by
      apply foldl_hdc_id
      intro kv hkv t
      apply hdcStep_skip
      cases hp : parameters kv.1 with
      | none => exact Or.inr (Or.inl rfl)
      | some p =>
        refine Or.inr (Or.inr ⟨p, rfl, ?_⟩)
        rw [heq kv hkv p hp]
        exact compare_generic_refl kv.2 _ _ (hvalid kv.1) (hwf kv hkv)
    unfold has_different_configuration
    rw [hfold]
    rfl

/-- Witness for C1 at a one-property table whose desired and observed values
agree. -/
theorem claim_C1_witness :
    has_different_configuration [("hostname", PropValue.scalar (5 : Int))]
      (fun k => if k = "hostname" then some (PropValue.scalar (5 : Int)) else none)
      (fun _ => true) (fun k => ⟨"value", "strict", k⟩) (fun k => k)
      = (false, ⟨[]⟩) := by
  apply claim_C1.2
  · intro k
    exact Or.inl rfl
  · intro kv hkv
    rcases List.mem_singleton.mp hkv with rfl
    trivial
  · intro kv hkv p hp
    rcases List.mem_singleton.mp hkv with rfl
    simp at hp
    exact hp.symm

/-- C2: during a reconciliation pass, a recorded difference can only come
from a property that is supported for the current daemon version and for
which the desired state carries an explicit value; the dependent properties
`restart_retries` and `log_driver`/`log_options` can only ever be compared
when their companion parameter (`restart_policy`, `log_driver`) is set,
because `config_mapping` only receives them in that case. -/
theorem claim_C2 {α : Type} [LinearOrder α]
    (base : List (String × PropValue α)) (restart_policy_set log_driver_set : Bool)
    (rr lv lo : PropValue α) (ar_sup st_sup : Bool) (av sv : PropValue α)
    (api : Bool) (limits : List (String × PropValue α))
    (parameters : String → Option (PropValue α)) (supported : String → Bool)
    (comparisons : String → ComparisonEntry) (pmap : String → String)
    (hbase : "restart_retries" ∉ base.map Prod.fst ∧
      "log_driver" ∉ base.map Prod.fst ∧ "log_options" ∉ base.map Prod.fst)
    (hlimits : "restart_retries" ∉ limits.map Prod.fst ∧
      "log_driver" ∉ limits.map Prod.fst ∧ "log_options" ∉ limits.map Prod.fst) :
    ∀ d ∈ (has_different_configuration
        (build_config_mapping base restart_policy_set log_driver_set rr lv lo
          ar_sup st_sup av sv api limits)
        parameters supported comparisons pmap).2.differences,
      supported d.property = true ∧ parameters d.property ≠ none ∧
      (d.property = "restart_retries" → restart_policy_set = true) ∧
      ((d.property = "log_driver" ∨ d.property = "log_options") →
        log_driver_set = true) := by
  intro d hd
  rcases mem_differences_foldl parameters supported comparisons pmap _ ⟨[]⟩ d hd with
    h | ⟨value, p, hmem, hsup, hp, _, _, _⟩
  · exact absurd h (List.not_mem_nil d)
  refine ⟨hsup, ?_, ?_, ?_⟩
  · intro hc
    rw [hp] at hc
    exact Option.noConfusion hc
  · intro hprop
    unfold build_config_mapping at hmem
    rw [hprop] at hmem
    simp only [List.mem_append] at hmem
    rcases hmem with ((((h1 | h2) | h3) | h4) | h5) | h6
    · exact absurd (List.mem_map_of_mem Prod.fst h1) hbase.1
    · cases hrp : restart_policy_set with
      | true => rfl
      | false =>
        rw [hrp] at h2
        simp at h2
    · cases hld : log_driver_set with
      | true =>
        rw [hld] at h3
        simp at h3
      | false =>
        rw [hld] at h3
        simp at h3
    · cases har : ar_sup with
      | true =>
        rw [har] at h4
        simp at h4
      | false =>
        rw [har] at h4
        simp at h4
    · cases hst : st_sup with
      | true =>
        rw [hst] at h5
        simp at h5
      | false =>
        rw [hst] at h5
        simp at h5
    · cases hap : api with
      | true =>
        rw [hap] at h6
        simp at h6
        exact absurd (List.mem_map_of_mem Prod.fst (by simpa using h6)) hlimits.1
      | false =>
        rw [hap] at h6
        simp at h6
  · intro hprop
    unfold build_config_mapping at hmem
    simp only [List.mem_append] at hmem
    rcases hmem with ((((h1 | h2) | h3) | h4) | h5) | h6
    · rcases hprop with hq | hq <;> rw [hq] at h1 <;>
        first
        | exact absurd (List.mem_map_of_mem Prod.fst h1) hbase.2.1
        | exact absurd (List.mem_map_of_mem Prod.fst h1) hbase.2.2
    · cases hrp : restart_policy_set with
      | true =>
        rw [hrp] at h2
        simp at h2
        rcases hprop with hq | hq <;> rw [hq] at h2 <;> simp at h2
      | false =>
        rw [hrp] at h2
        simp at h2
    · cases hld : log_driver_set with
      | true => rfl
      | false =>
        rw [hld] at h3
        simp at h3
    · cases har : ar_sup with
      | true =>
        rw [har] at h4
        simp at h4
        rcases hprop with hq | hq <;> rw [hq] at h4 <;> simp at h4
      | false =>
        rw [har] at h4
        simp at h4
    · cases hst : st_sup with
      | true =>
        rw [hst] at h5
        simp at h5
        rcases hprop with hq | hq <;> rw [hq] at h5 <;> simp at h5
      | false =>
        rw [hst] at h5
        simp at h5
    · cases hap : api with
      | true =>
        rw [hap] at h6
        simp at h6
        rcases hprop with hq | hq <;> rw [hq] at h6 <;>
          first
          | exact absurd (List.mem_map_of_mem Prod.fst (by simpa using h6)) hlimits.2.1
          | exact absurd (List.mem_map_of_mem Prod.fst (by simpa using h6)) hlimits.2.2
      | false =>
        rw [hap] at h6
        simp at h6

/-- Witness for C2: with `restart_policy` unset, a differing
`restart_retries` value records no difference, while a differing supported
ordinary property does, and its recorded difference satisfies the
guarantees of the claim. -/
theorem claim_C2_witness :
    true = true ∧ some (PropValue.scalar (2 : Int)) ≠ none ∧
    (("hostname" : String) = "restart_retries" → false = true) ∧
    ((("hostname" : String) = "log_driver" ∨ ("hostname" : String) = "log_options") →
      false = true) :=
  claim_C2 [("hostname", PropValue.scalar (1 : Int))] false false
    (PropValue.scalar 9) (PropValue.scalar 9) (PropValue.scalar 9)
    false false (PropValue.scalar 9) (PropValue.scalar 9) false []
    (fun _ => some (PropValue.scalar (2 : Int))) (fun _ => true)
    (fun k => ⟨"value", "strict", k⟩) (fun k => k)
    (by decide) (by decide)
    ⟨"hostname", PropValue.scalar 2, PropValue.scalar 1⟩ (by decide)

/-- C3: when the comparisons module parameter carries both a `*` wildcard
entry and an explicit per-property entry, and parsing succeeds, the final
comparison strategy of the addressed property is the explicitly assigned
one: the wildcard is applied first (over the whole table) and the explicit
overrides afterwards.  The addressed option is any key resolving through
`comp_aliases`; the three implicit entries added at the end of
`_parse_comparisons` are carved out because they are not module options. -/
theorem claim_C3 (spec : List (String × ArgData)) (nc : List String)
    (ii pn ns : Bool) (cp : List (String × String)) (key v w km : String)
    (hw : cp.lookup "*" = some w)
    (hmem : (key, v) ∈ cp) (hstar : key ≠ "*")
    (halias : (buildDefaults spec nc).2 key = some km)
    (hk1 : km ≠ "publish_all_ports") (hk2 : km ≠ "expected_ports")
    (hk3 : km ≠ "disable_healthcheck")
    (hok : exceptIsOk (parse_comparisons spec nc ii pn ns (some cp)) = true) :
    (parse_comparisons spec nc ii pn ns (some cp)).map
      (fun r => (List.lookup km r).map ComparisonEntry.comparison)
      = .ok (some v) := by
  have hne : cp ≠ [] := by
    intro he
    rw [he] at hw
    exact Option.noConfusion hw
  rw [parse_eq_bind spec nc ii pn ns cp hne] at hok ⊢
  cases hwc : applyWildcard (initialComparisons spec nc ii pn) ns cp with
  | error m =>
    rw [hwc, exceptBindError] at hok
    simp [exceptIsOk] at hok
  | ok comps2 =>
    rw [hwc, exceptBindOk] at hok
    rw [exceptBindOk]
    cases he : applyExplicit comps2 (buildDefaults spec nc).2 (allOptions spec) cp with
    | error m =>
      rw [he, exceptBindError] at hok
      simp [exceptIsOk] at hok
    | ok comps3 =>
      rw [he, exceptBindOk] at hok
      rw [exceptBindOk]
      cases hai : addImplicit comps3 with
      | error m =>
        rw [hai] at hok
        simp [exceptIsOk] at hok
      | ok result =>
        show Except.ok ((List.lookup km result).map ComparisonEntry.comparison)
          = Except.ok (some v)
        rw [addImplicit_lookup_ne hai hk1 hk2 hk3]
        rcases buildDefaults_lookup_isSome spec nc key km halias with ⟨e0, he0⟩
        rcases lookup_initialComparisons_isSome spec nc ii pn km he0 with ⟨e1, he1⟩
        have hpres2 : ∃ e2, List.lookup km comps2 = some e2 := by
          rcases applyWildcard_ok_lookup hwc km with heq | ⟨w2, heq⟩
          · exact ⟨e1, by rw [heq, he1]⟩
          · exact ⟨_, by rw [heq, he1]; rfl⟩
        rcases hpres2 with ⟨e2, he2⟩
        unfold applyExplicit at he
        cases hfold : cp.foldlM
            (explicitStep (buildDefaults spec nc).2 (allOptions spec))
            (comps2, fun _ => none) with
        | error m =>
          rw [hfold] at he
          exact Except.noConfusion he
        | ok stf =>
          rw [hfold] at he
          injection he with he3
          rcases foldlM_ok_override cp (comps2, fun _ => none) stf key v km e2
            hfold hmem hstar halias he2 with ⟨efin, hefin, hcompv⟩
          rw [← he3, hefin]
          show Except.ok (some efin.comparison) = Except.ok (some v)
          rw [hcompv]

/-- Witness for C3: a wildcard `ignore` with an explicit `strict` override
on `image` resolves `image` to strict comparison. -/
theorem claim_C3_witness :
    (parse_comparisons
        [("image", ⟨"str", []⟩), ("published_ports", ⟨"list", ["ports"]⟩),
         ("healthcheck", ⟨"dict", []⟩)]
        NON_CONTAINER_PROPERTY_OPTIONS_BASE false false false
        (some [("*", "ignore"), ("image", "strict")])).map
      (fun r => (List.lookup "image" r).map ComparisonEntry.comparison)
      = .ok (some "strict") :=
  claim_C3
    [("image", ⟨"str", []⟩), ("published_ports", ⟨"list", ["ports"]⟩),
     ("healthcheck", ⟨"dict", []⟩)]
    NON_CONTAINER_PROPERTY_OPTIONS_BASE false false false
    [("*", "ignore"), ("image", "strict")] "image" "strict" "ignore" "image"
    (by decide) (by decide) (by decide) (by decide) (by decide) (by decide)
    (by decide) (by decide)

/-- C4: a comparisons configuration whose `*` wildcard entry carries any
value other than `strict` or `ignore` makes `_parse_comparisons` fail
fatally at setup, with the wildcard error, before any comparison is run. -/
theorem claim_C4 (spec : List (String × ArgData)) (nc : List String)
    (ii pn ns : Bool) (cp : List (String × String)) (w : String)
    (hw : cp.lookup "*" = some w) (h1 : w ≠ "strict") (h2 : w ≠ "ignore") :
    parse_comparisons spec nc ii pn ns (some cp) = .error wildcardError := by
  have hne : cp ≠ [] := by
    intro he
    rw [he] at hw
    exact Option.noConfusion hw
  rw [parse_eq_bind spec nc ii pn ns cp hne]
  have hwc : applyWildcard (initialComparisons spec nc ii pn) ns cp
      = .error wildcardError := by
    simp only [applyWildcard, hw]
    rw [if_neg (fun hor => Or.elim hor h1 h2)]
  rw [hwc, exceptBindError]

/-- Witness for C4: a wildcard set to `allow_more_present` is rejected. -/
theorem claim_C4_witness :
    parse_comparisons [] [] false false false
      (some [("*", "allow_more_present")]) = .error wildcardError :=
  claim_C4 [] [] false false false [("*", "allow_more_present")]
    "allow_more_present" rfl (by decide) (by decide)

/-- C5: an explicit per-property comparison override assigning
`allow_more_present` to an option whose resolved value shape is scalar
(type `value`) makes `_parse_comparisons` fail fatally at setup with the
scalar-comparison error, rather than deferring the error to comparison
time. -/
theorem claim_C5 (spec : List (String × ArgData)) (nc : List String)
    (ii pn ns : Bool) (key km : String) (e : ComparisonEntry)
    (hstar : key ≠ "*")
    (halias : (buildDefaults spec nc).2 key = some km)
    (hlk : List.lookup km (initialComparisons spec nc ii pn) = some e)
    (htyp : e.typ = "value") :
    parse_comparisons spec nc ii pn ns (some [(key, "allow_more_present")])
      = .error (valueComparisonError key "allow_more_present") := by
  have hne : ([(key, "allow_more_present")] : List (String × String)) ≠ [] := by
    simp
  rw [parse_eq_bind spec nc ii pn ns _ hne]
  have hlstar : List.lookup "*" [(key, "allow_more_present")] = none := by
    have hks : ("*" : String) ≠ key := fun he => hstar he.symm
    simp only [List.lookup, beq_eq_false_iff_ne.mpr hks]
  have hwc : applyWildcard (initialComparisons spec nc ii pn) ns
      [(key, "allow_more_present")] = .ok (initialComparisons spec nc ii pn) := by
    simp only [applyWildcard, hlstar]
  rw [hwc, exceptBindOk]
  have hstep : explicitStep (buildDefaults spec nc).2 (allOptions spec)
      (initialComparisons spec nc ii pn, fun _ => none) (key, "allow_more_present")
      = .error (valueComparisonError key "allow_more_present") := by
    simp only [explicitStep, halias, hlk, htyp]
    rw [if_neg hstar]
    simp
  have hex : applyExplicit (initialComparisons spec nc ii pn)
      (buildDefaults spec nc).2 (allOptions spec) [(key, "allow_more_present")]
      = .error (valueComparisonError key "allow_more_present") := by
    unfold applyExplicit
    rw [List.foldlM_cons, hstep]
    rfl
  rw [hex, exceptBindError]

/-- Witness for C5: overriding the scalar option `image` with
`allow_more_present` is rejected at setup. -/
theorem claim_C5_witness :
    parse_comparisons [("image", ⟨"str", []⟩)] NON_CONTAINER_PROPERTY_OPTIONS_BASE
      false false false (some [("image", "allow_more_present")])
      = .error (valueComparisonError "image" "allow_more_present") :=
  claim_C5 [("image", ⟨"str", []⟩)] NON_CONTAINER_PROPERTY_OPTIONS_BASE
    false false false "image" "image" ⟨"value", "strict", "image"⟩
    (by decide) (by decide) (by decide) rfl

/-- C6: the comparator reports a match for every pair of values under the
`ignore` strategy, and consequently a property whose configured comparison
is `ignore` can never contribute a difference to the reconciliation
result. -/
theorem claim_C6 {α : Type} [LinearOrder α] :
    (∀ (a b : PropValue α) (typ : String), compare_generic a b "ignore" typ = true)
    ∧
    (∀ (cfg : List (String × PropValue α)) (parameters : String → Option (PropValue α))
       (supported : String → Bool) (comparisons : String → ComparisonEntry)
       (pmap : String → String) (key : String),
       (comparisons (pmap key)).comparison = "ignore" →
       ∀ d ∈ (has_different_configuration cfg parameters supported
           comparisons pmap).2.differences,
         d.property ≠ key) := by
  constructor
  · exact compare_generic_ignore
  · intro cfg parameters supported comparisons pmap key hig d hd hprop
    rcases mem_differences_foldl parameters supported comparisons pmap cfg ⟨[]⟩ d hd with
      h | ⟨value, p, _, _, _, hcmp, _, _⟩
    · exact absurd h (List.not_mem_nil d)
    · rw [hprop, hig, compare_generic_ignore] at hcmp
      exact Bool.noConfusion hcmp

/-- Witness for C6: with an `ignore` strategy on `labels`, even a differing
pair records no difference for `labels`, and the comparator matches a
concrete differing pair. -/
theorem claim_C6_witness :
    compare_generic (PropValue.scalar (1 : Int)) (PropValue.scalar (2 : Int))
      "ignore" "value" = true
    ∧ ((⟨"labels", PropValue.scalar (1 : Int), PropValue.scalar (2 : Int)⟩ :
        Difference Int) ∈
        (has_different_configuration [("labels", PropValue.scalar (2 : Int))]
          (fun _ => some (PropValue.scalar (1 : Int))) (fun _ => true)
          (fun _ => ⟨"value", "ignore", "labels"⟩) (fun k => k)).2.differences →
        False) :=
  ⟨claim_C6.1 _ _ _,
   fun hd => claim_C6.2 _ _ _ _ _ "labels" rfl _ hd rfl⟩

/-- C7: every difference recorded by the reconciliation loop stores the
desired and observed values after display normalization (`sortForDiff` for
the configured type), and this normalization is invariant under permutation
of the elements of an unordered collection: unconditionally for `set`
values, and for `set(dict)` values whose dictionaries are in canonical
(sorted-items) form, so the recorded diff is deterministic and independent
of the original element order. -/
theorem claim_C7 {α : Type} [LinearOrder α] :
    (∀ (cfg : List (String × PropValue α)) (parameters : String → Option (PropValue α))
       (supported : String → Bool) (comparisons : String → ComparisonEntry)
       (pmap : String → String),
       ∀ d ∈ (has_different_configuration cfg parameters supported
           comparisons pmap).2.differences,
         ∃ value p, (d.property, value) ∈ cfg ∧ parameters d.property = some p ∧
           d.parameter = sortForDiff (comparisons (pmap d.property)).typ p ∧
           d.active = sortForDiff (comparisons (pmap d.property)).typ value)
    ∧
    (∀ l l2 : List α, List.Perm l l2 →
       sortForDiff "set" (PropValue.list l) = sortForDiff "set" (PropValue.list l2))
    ∧
    (∀ l l2 : List (List (String × α)),
       (∀ d ∈ l, List.Sorted pairLe d) → List.Perm l l2 →
       sortForDiff "set(dict)" (PropValue.dictList l)
         = sortForDiff "set(dict)" (PropValue.dictList l2)) := by
  refine ⟨?_, fun l l2 h => sortForDiff_set_perm h,
    fun l l2 hc h => sortForDiff_setdict_perm hc h⟩
  intro cfg parameters supported comparisons pmap d hd
  rcases mem_differences_foldl parameters supported comparisons pmap cfg ⟨[]⟩ d hd with
    h | ⟨value, p, hmem, _, hp, _, hpar, hact⟩
  · exact absurd h (List.not_mem_nil d)
  · exact ⟨value, p, hmem, hp, hpar, hact⟩

/-- Witness for C7: sorting is permutation-invariant on a concrete `set`
value and a concrete canonical `set(dict)` value. -/
theorem claim_C7_witness :
    sortForDiff "set" (PropValue.list ([2, 1, 1] : List Int))
      = sortForDiff "set" (PropValue.list ([1, 1, 2] : List Int))
    ∧ sortForDiff "set(dict)"
        (PropValue.dictList [[("a", (1 : Int))], [("b", (2 : Int))]])
      = sortForDiff "set(dict)"
        (PropValue.dictList [[("b", (2 : Int))], [("a", (1 : Int))]]) :=
  ⟨claim_C7.2.1 [2, 1, 1] [1, 1, 2] (by decide),
   claim_C7.2.2 [[("a", (1 : Int))], [("b", (2 : Int))]]
     [[("b", (2 : Int))], [("a", (1 : Int))]] (by decide) (by decide)⟩

/-- C8: a valid `*` wildcard entry overrides the comparison of every entry
of the table, except that the `networks` entry is overridden only when the
`networks` module parameter was supplied; when it was not, `networks` keeps
its prior strategy despite the global wildcard. -/
theorem claim_C8 (comps : List (String × ComparisonEntry)) (ns : Bool)
    (cp : List (String × String)) (w : String)
    (hw : cp.lookup "*" = some w) (hv : w = "strict" ∨ w = "ignore") :
    (∀ km e, km ≠ "networks" → List.lookup km comps = some e →
       (applyWildcard comps ns cp).map (fun r => List.lookup km r)
         = .ok (some ⟨e.typ, w, e.name⟩))
    ∧ (ns = false → ∀ e, List.lookup "networks" comps = some e →
       (applyWildcard comps ns cp).map (fun r => List.lookup "networks" r)
         = .ok (some e))
    ∧ (ns = true → ∀ e, List.lookup "networks" comps = some e →
       (applyWildcard comps ns cp).map (fun r => List.lookup "networks" r)
         = .ok (some ⟨e.typ, w, e.name⟩)) := by
  refine ⟨?_, ?_, ?_⟩
  · intro km e hkm hlk
    rw [applyWildcard_lookup_of_star hw hv km, hlk]
    show Except.ok (some (if km = "networks" ∧ ns = false then e
      else ⟨e.typ, w, e.name⟩)) = _
    rw [if_neg (fun hc => hkm hc.1)]
  · intro hns e hlk
    rw [applyWildcard_lookup_of_star hw hv "networks", hlk]
    show Except.ok (some (if ("networks" : String) = "networks" ∧ ns = false then e
      else ⟨e.typ, w, e.name⟩)) = _
    rw [if_pos ⟨rfl, hns⟩]
  · intro hns e hlk
    rw [applyWildcard_lookup_of_star hw hv "networks", hlk]
    show Except.ok (some (if ("networks" : String) = "networks" ∧ ns = false then e
      else ⟨e.typ, w, e.name⟩)) = _
    rw [if_neg (fun hc => by rw [hns] at hc; exact Bool.noConfusion hc.2)]

/-- Witness for C8: under a global `ignore` wildcard with the `networks`
parameter unset, `image` is overridden to `ignore` while `networks` keeps
`allow_more_present`. -/
theorem claim_C8_witness :
    (applyWildcard
        [("image", ⟨"value", "strict", "image"⟩),
         ("networks", ⟨"set(dict)", "allow_more_present", "networks"⟩)]
        false [("*", "ignore")]).map (fun r => List.lookup "image" r)
      = .ok (some ⟨"value", "ignore", "image"⟩)
    ∧ (applyWildcard
        [("image", ⟨"value", "strict", "image"⟩),
         ("networks", ⟨"set(dict)", "allow_more_present", "networks"⟩)]
        false [("*", "ignore")]).map (fun r => List.lookup "networks" r)
      = .ok (some ⟨"set(dict)", "allow_more_present", "networks"⟩) :=
  ⟨(claim_C8
      [("image", ⟨"value", "strict", "image"⟩),
       ("networks", ⟨"set(dict)", "allow_more_present", "networks"⟩)]
      false [("*", "ignore")] "ignore" (by decide) (Or.inr rfl)).1 "image"
      ⟨"value", "strict", "image"⟩ (by decide) (by decide),
   (claim_C8
      [("image", ⟨"value", "strict", "image"⟩),
       ("networks", ⟨"set(dict)", "allow_more_present", "networks"⟩)]
      false [("*", "ignore")] "ignore" (by decide) (Or.inr rfl)).2.1 rfl
      ⟨"set(dict)", "allow_more_present", "networks"⟩ (by decide)⟩

/-- C9: the unpause-and-retry loops of `container_remove` and
`container_stop` carry a fixed budget of 3 unpause-and-retry attempts: when
every attempt fails with the paused error (and unpausing succeeds), the
operation performs exactly 3 unpauses and then fails fatally; and the
result of either loop depends only on the outcomes of the first four call
attempts and first three unpauses, so the loop always terminates within
that bound. -/
theorem claim_C9 :
    (∀ (a : Nat → RemoveOutcome) (u : Nat → Bool),
       (∀ k, k ≤ 3 → a k = .pausedErr) → (∀ k, k < 3 → u k = true) →
       container_remove a u
         = ⟨.fatal "Error removing container (tried to unpause three times)", 3⟩)
    ∧ (∀ (a : Nat → StopOutcome) (u : Nat → Bool),
       (∀ k, k ≤ 3 → a k = .pausedErr) → (∀ k, k < 3 → u k = true) →
       container_stop a u
         = ⟨.fatal "Error removing container (tried to unpause three times)", 3⟩)
    ∧ (∀ (a a2 : Nat → RemoveOutcome) (u u2 : Nat → Bool),
       (∀ k, k ≤ 3 → a k = a2 k) → (∀ k, k < 3 → u k = u2 k) →
       container_remove a u = container_remove a2 u2)
    ∧ (∀ (a a2 : Nat → StopOutcome) (u u2 : Nat → Bool),
       (∀ k, k ≤ 3 → a k = a2 k) → (∀ k, k < 3 → u k = u2 k) →
       container_stop a u = container_stop a2 u2) := by
  refine ⟨?_, ?_, ?_, ?_⟩
  · intro a u ha hu
    unfold container_remove
    rw [removeLoop_pausedAll a u ha hu 0 (by omega)]
  · intro a u ha hu
    unfold container_stop
    rw [stopLoop_pausedAll a u ha hu 0 (by omega)]
  · intro a a2 u u2 ha hu
    unfold container_remove
    exact removeLoop_congr a a2 u u2 ha hu 0 (by omega)
  · intro a a2 u u2 ha hu
    unfold container_stop
    exact stopLoop_congr a a2 u u2 ha hu 0 (by omega)

/-- Witness for C9: with every call reporting the paused error and every
unpause succeeding, both operations fail fatally after exactly three
unpauses. -/
theorem claim_C9_witness :
    container_remove (fun _ => RemoveOutcome.pausedErr) (fun _ => true)
      = ⟨.fatal "Error removing container (tried to unpause three times)", 3⟩
    ∧ container_stop (fun _ => StopOutcome.pausedErr) (fun _ => true)
      = ⟨.fatal "Error removing container (tried to unpause three times)", 3⟩ :=
  ⟨claim_C9.1 _ _ (fun _ _ => rfl) (fun _ _ => rfl),
   claim_C9.2.1 _ _ (fun _ _ => rfl) (fun _ _ => rfl)⟩

/-- C10: a comparisons configuration that names the same underlying option
through two different keys (an option name and one of its aliases, or two
aliases of the same option) makes `_parse_comparisons` fail fatally at
setup, rather than letting one entry silently overwrite the other. -/
theorem claim_C10 (spec : List (String × ArgData)) (nc : List String)
    (ii pn ns : Bool) (cp : List (String × String)) (k1 v1 k2 v2 km : String)
    (hm1 : (k1, v1) ∈ cp) (hm2 : (k2, v2) ∈ cp) (hne : k1 ≠ k2)
    (hs1 : k1 ≠ "*") (hs2 : k2 ≠ "*")
    (ha1 : (buildDefaults spec nc).2 k1 = some km)
    (ha2 : (buildDefaults spec nc).2 k2 = some km) :
    exceptIsOk (parse_comparisons spec nc ii pn ns (some cp)) = false := by
  have hnl : cp ≠ [] := by
    intro he
    rw [he] at hm1
    exact List.not_mem_nil _ hm1
  rw [parse_eq_bind spec nc ii pn ns cp hnl]
  cases hwc : applyWildcard (initialComparisons spec nc ii pn) ns cp with
  | error m =>
    rw [exceptBindError]
    rfl
  | ok comps2 =>
    rw [exceptBindOk]
    rcases @foldlM_error_of_dup (buildDefaults spec nc).2 (allOptions spec)
      cp (comps2, fun _ => none)
      k1 v1 k2 v2 km hm1 hm2 hne hs1 hs2 ha1 ha2 with ⟨msg, hmsg⟩
    have hex : applyExplicit comps2 (buildDefaults spec nc).2 (allOptions spec) cp
        = .error msg := by
      unfold applyExplicit
      rw [hmsg]
      rfl
    rw [hex, exceptBindError]
    rfl

/-- Witness for C10: naming `log_options` both directly and through its
alias `log_opt` is rejected. -/
theorem claim_C10_witness :
    exceptIsOk (parse_comparisons [("log_options", ⟨"dict", ["log_opt"]⟩)]
      NON_CONTAINER_PROPERTY_OPTIONS_BASE false false false
      (some [("log_options", "ignore"), ("log_opt", "ignore")])) = false :=
  claim_C10 [("log_options", ⟨"dict", ["log_opt"]⟩)]
    NON_CONTAINER_PROPERTY_OPTIONS_BASE false false false
    [("log_options", "ignore"), ("log_opt", "ignore")]
    "log_options" "ignore" "log_opt" "ignore" "log_options"
    (by decide) (by decide) (by decide) (by decide) (by decide)
    (by decide) (by decide)

end AnsibleDocker
